import Mathlib

/-!
Verification development for the lead language toolchain
(lexer → parser → IR generator → register VM).

The definitions below are a shallow embedding of the Rust sources:
  - src/lead/src/lex/span.rs         (Span, superspan, join)
  - src/lead/src/lex/token.rs        (TokenType, Token)
  - src/lead/src/lex/mod.rs          (Lexer)
  - src/lead/src/parse/ast.rs        (AST)
  - src/lead/src/parse/mod.rs        (LangParser)
  - src/lead/src/air/air.rs          (Reg, Flag, Mode, Instruction, Inst)
  - src/lead/src/air/block.rs        (Block)
  - src/lead/src/air/mod.rs          (GenerationState, lowering)
  - src/src/air/segment.rs           (Segment; the lead crate declares
    `mod segment` but the file is absent from the snapshot, so Segment is
    modelled from the draft copy in src/src/air/segment.rs, which the lead
    lowering code calls with identical method names)
  - src/lead-vm/src/lib.rs           (Machine, Flags)

Modelling conventions:
  - u32 arithmetic follows the release-profile wrapping semantics the spec
    assigns to the VM (mod 2^32), written with an explicit wrap.
  - Rust panics (register read of an uninitialised register, branch to a
    missing label, memory out of bounds, division by zero, .expect/.unwrap
    in the lowering) are modelled as explicit error values.
  - HashMap is modelled as an association list whose insert conses a new
    binding; lookup takes the most recent binding, matching HashMap::insert
    replacement semantics observationally.
  - Label strings are produced in the source from fresh v4 UUIDs plus a
    suffix; the randomness is modelled by a fresh counter in the generator
    state, keeping the distinctness and the suffix structure.
  - Spans carried by tokens, AST nodes and instructions are modelled as
    plain (lo, hi) ranges; the prime id component (drawn from a global
    sieve) is modelled only on the standalone Span structure, since nothing
    in the lexer, parser, generator or VM ever reads the id.
-/

namespace Lead

/-- Source range, `(lo, hi)`, half open. -/
abbrev SpanR := Nat × Nat

/-- Range union as in span.rs join_spans: componentwise min / max. -/
def joinSpans (a b : SpanR) : SpanR := (min a.1 b.1, max a.2 b.2)

/-- Span from src/lead/src/lex/span.rs: a range plus a 64-bit identifier
drawn from the primes.  Overflow of the id product aborts in the source
(debug assertions), so the id is modelled as an exact natural number. -/
structure Span where
  id : Nat
  lo : Nat
  hi : Nat
deriving DecidableEq, Repr

/-- A span as constructed by the program: `Span::new` asserts `lo ≤ hi`,
and every id is a prime (hence positive) or a product of such. -/
def Span.Valid (s : Span) : Prop := s.lo ≤ s.hi ∧ 0 < s.id

/-- Span::superspan - the union range with the product of the ids. -/
def Span.superspan (a b : Span) : Span :=
  { id := a.id * b.id, lo := min a.lo b.lo, hi := max a.hi b.hi }

/-- Span::join mutates only the range of the receiver; the id is kept. -/
def Span.joinMut (a b : Span) : Span :=
  { a with lo := min a.lo b.lo, hi := max a.hi b.hi }

/-- Virtual register number (air.rs Reg, a u32 newtype). -/
abbrev Reg := Nat

/-- Condition flags from air.rs, in source declaration order (the
discriminant is the bit index used by the VM flag mask). -/
inductive Flag where
  | al | eq | ne | lt | le | gt | ge | nv
deriving DecidableEq, Repr

/-- Discriminant of the Rust Flag enum (`flag as u8`). -/
def Flag.toBits : Flag → Nat
  | .al => 0
  | .eq => 1
  | .ne => 2
  | .lt => 3
  | .le => 4
  | .gt => 5
  | .ge => 6
  | .nv => 7

/-- Flag::negate from air.rs. -/
def Flag.negate : Flag → Flag
  | .al => .nv
  | .eq => .ne
  | .ge => .lt
  | .gt => .le
  | .le => .gt
  | .lt => .ge
  | .ne => .eq
  | .nv => .al

/-- Memory addressing modes (air.rs Mode). -/
inductive Mode where
  | none
  | offset (r : Reg)
  | preOffset (r : Reg)
  | postOffset (r : Reg)
deriving DecidableEq, Repr

/-- Label-name suffixes used by the IR generator
(`-if`, `-check-condition`, `-loop`, `-break`). -/
inductive LabelSuffix where
  | ifL | checkCondition | loopL | breakL
deriving DecidableEq, Repr

/-- A label string: a fresh UUID (modelled as a counter value) plus a
suffix.  Distinct uuids model distinct v4 UUIDs. -/
structure Label where
  uuid : Nat
  suffix : LabelSuffix
deriving DecidableEq, Repr

/-- The AIR instruction set (air.rs Instruction). -/
inductive Instruction where
  | add (rd rx ry : Reg)
  | sub (rd rx ry : Reg)
  | mul (rd rx ry : Reg)
  | div (rd rx ry : Reg)
  | con (rd : Reg) (val : Nat)
  | mov (rd rx : Reg)
  | not (rd rx : Reg)
  | cmp (rx ry : Reg) (hint : Option Flag)
  | chk (f : Flag)
  | str (src addr : Reg) (mode : Mode)
  | ldr (rd addr : Reg) (mode : Mode)
  | lbl (l : Label)
  | bra (l : Label)
  | yld (rx : Reg)
deriving DecidableEq, Repr

/-- Instruction::output_register from air.rs: the destination of a
value-producing instruction. -/
def Instruction.output_register : Instruction → Option Reg
  | .add r _ _ => some r
  | .sub r _ _ => some r
  | .mul r _ _ => some r
  | .div r _ _ => some r
  | .con r _ => some r
  | .not r _ => some r
  | _ => none

/-- Inst from air.rs: an instruction together with its span. -/
structure Inst where
  instruction : Instruction
  span : SpanR
deriving DecidableEq, Repr

/-- Inst::output_register delegates to the instruction. -/
def Inst.output_register (i : Inst) : Option Reg :=
  i.instruction.output_register

/-- Block from src/lead/src/air/block.rs: an instruction sequence with a
designated output register. -/
structure Block where
  instructions : List Inst
  output_register : Option Reg
deriving DecidableEq, Repr

/-- The register of the last value-producing instruction of a list, if
any (the quantity Block maintains as its output register). -/
def lastOutputRegister (l : List Inst) : Option Reg :=
  l.reverse.findSome? Inst.output_register

/-- Block::new. -/
def Block.new (i : Inst) : Block :=
  { instructions := [i], output_register := i.output_register }

/-- Block::empty. -/
def Block.empty : Block :=
  { instructions := [], output_register := none }

/-- Block::append_inst: the new instruction's output register, when it has
one, replaces the stored one (`instruction.output_register().or(...)`). -/
def Block.append_inst (b : Block) (i : Inst) : Block :=
  { instructions := b.instructions ++ [i],
    output_register :=
      match i.output_register with
      | some r => some r
      | none => b.output_register }

/-- Block::from_instructions: the output register is recomputed as the
first Some in the reversed list. -/
def Block.from_instructions (l : List Inst) : Block :=
  { instructions := l, output_register := lastOutputRegister l }

/-- The Extend impl for Block: push all instructions, then recompute the
output register from the whole extended list (reverse find). -/
def Block.extend (b : Block) (l : List Inst) : Block :=
  { instructions := b.instructions ++ l,
    output_register := lastOutputRegister (b.instructions ++ l) }

/-! ## The virtual machine (src/lead-vm/src/lib.rs) -/

/-- Two to the thirty-second, the u32 modulus. -/
def u32Mod : Nat := 4294967296

/-- Wrap an integer into a u32 value (release-profile wrapping
arithmetic, i.e. arithmetic modulo two to the 32). -/
def wrap32 (z : Int) : Nat := (z % (4294967296 : Int)).toNat

/-- Host-facing messages (Message in lib.rs). -/
inductive Message where
  | yieldMsg (v : Nat)
  | done
deriving DecidableEq, Repr

/-- Fatal VM conditions; each is a panic in the source. -/
inductive VMErr where
  | uninitRegister (r : Reg)
  | missingLabel (l : Label)
  | memoryOutOfBounds
  | divisionByZero
deriving DecidableEq, Repr

/-- Association-list lookup used to model the register HashMap. -/
def regLookup : List (Reg × Nat) → Reg → Option Nat
  | [], _ => none
  | (r, v) :: rest, q => if r = q then some v else regLookup rest q

/-- The VM state (Machine in lib.rs); the yield channel is modelled by
returning emitted messages from each step. -/
structure Machine where
  instructions : List Instruction
  registers : List (Reg × Nat)
  memory : List Nat
  pc : Nat
  flags : Nat
deriving DecidableEq, Repr

/-- Machine::new: empty registers, zeroed memory of the requested size,
pc 0, flags with only the Al bit set (Flags::empty). -/
def Machine.new (instructions : List Instruction) (memorySize : Nat) : Machine :=
  { instructions := instructions
    registers := []
    memory := List.replicate memorySize 0
    pc := 0
    flags := 1 }

/-- Machine::get - read a register; the source unwraps, panicking on an
uninitialised register. -/
def Machine.get (m : Machine) (r : Reg) : Except VMErr Nat :=
  match regLookup m.registers r with
  | some v => .ok v
  | none => .error (.uninitRegister r)

/-- Machine::save - write a register (HashMap::insert). -/
def Machine.save (m : Machine) (r : Reg) (v : Nat) : Machine :=
  { m with registers := (r, v) :: m.registers }

/-- Flags::set - or the flag's bit into the mask. -/
def Flags.set (mask : Nat) (f : Flag) : Nat :=
  mask ||| (1 <<< f.toBits)

/-- Flags::contains - Nv reads as unset; otherwise test the flag's bit. -/
def Flags.contains (mask : Nat) (f : Flag) : Bool :=
  if f = .nv then false else ((mask >>> f.toBits) &&& 1) == 1

/-- Machine::set_flags - set each comparison bit whose predicate holds of
the two compared values; nothing is ever cleared. -/
def setFlagsMask (mask : Nat) (x y : Nat) : Nat :=
  let m1 := if x = y then Flags.set mask .eq else mask
  let m2 := if x ≠ y then Flags.set m1 .ne else m1
  let m3 := if x < y then Flags.set m2 .lt else m2
  let m4 := if x ≤ y then Flags.set m3 .le else m3
  let m5 := if x > y then Flags.set m4 .gt else m4
  if x ≥ y then Flags.set m5 .ge else m5

/-- Machine::find_label - index of the first matching LBL. -/
def Machine.findLabel (m : Machine) (l : Label) : Option Nat :=
  m.instructions.findIdx? (fun i => i = Instruction.lbl l)

/-- Big-endian bytes of a u32 value (u32::to_be_bytes). -/
def beBytes (v : Nat) : List Nat :=
  [(v >>> 24) % 256, (v >>> 16) % 256, (v >>> 8) % 256, v % 256]

/-- Write the four big-endian bytes of a value at addr; out-of-bounds
access panics in the source. -/
def memStore (mem : List Nat) (addr : Nat) (v : Nat) : Except VMErr (List Nat) :=
  if addr + 4 ≤ mem.length then
    .ok ((((mem.set addr ((v >>> 24) % 256)).set (addr + 1) ((v >>> 16) % 256)).set
        (addr + 2) ((v >>> 8) % 256)).set (addr + 3) (v % 256))
  else
    .error .memoryOutOfBounds

/-- Read four big-endian bytes from addr (u32::from_be_bytes). -/
def memLoad (mem : List Nat) (addr : Nat) : Except VMErr Nat :=
  if addr + 4 ≤ mem.length then
    .ok (mem[addr]! <<< 24 + mem[addr + 1]! <<< 16 + mem[addr + 2]! <<< 8 + mem[addr + 3]!)
  else
    .error .memoryOutOfBounds

/-- Effective-address computation shared by Machine::store and
Machine::load: resolve the mode, with the pre-offset write-back. -/
def Machine.effAddr (m : Machine) (raddr : Reg) (mode : Mode) :
    Except VMErr (Nat × Machine) :=
  match mode with
  | .none | .postOffset _ => do
    let a ← m.get raddr
    .ok (a, m)
  | .offset rofst => do
    let a ← m.get raddr
    let o ← m.get rofst
    .ok (wrap32 (a + o), m)
  | .preOffset rofst => do
    let a ← m.get raddr
    let o ← m.get rofst
    let addr := wrap32 (a + o)
    .ok (addr, m.save raddr addr)

/-- The post-offset write-back performed after the memory access. -/
def Machine.postAdjust (m : Machine) (raddr : Reg) (mode : Mode) :
    Except VMErr Machine :=
  match mode with
  | .postOffset rofst => do
    let a ← m.get raddr
    let o ← m.get rofst
    .ok (m.save raddr (wrap32 (a + o)))
  | _ => .ok m

/-- Machine::store. -/
def Machine.store (m : Machine) (raddr : Reg) (value : Nat) (mode : Mode) :
    Except VMErr Machine := do
  let (addr, m1) ← m.effAddr raddr mode
  let mem ← memStore m1.memory addr value
  Machine.postAdjust { m1 with memory := mem } raddr mode

/-- Machine::load. -/
def Machine.load (m : Machine) (raddr : Reg) (mode : Mode) :
    Except VMErr (Nat × Machine) := do
  let (addr, m1) ← m.effAddr raddr mode
  let v ← memLoad m1.memory addr
  let m2 ← Machine.postAdjust m1 raddr mode
  .ok (v, m2)

/-- Machine::process - one instruction, excluding the main loop's +1 on
the program counter. -/
def Machine.process (m : Machine) : Instruction → Except VMErr (Machine × List Message)
  | .add rd rx ry => do
    let x ← m.get rx
    let y ← m.get ry
    .ok (m.save rd (wrap32 (x + y)), [])
  | .sub rd rx ry => do
    let x ← m.get rx
    let y ← m.get ry
    .ok (m.save rd (wrap32 ((x : Int) - (y : Int))), [])
  | .mul rd rx ry => do
    let x ← m.get rx
    let y ← m.get ry
    .ok (m.save rd (wrap32 (x * y)), [])
  | .div rd rx ry => do
    let x ← m.get rx
    let y ← m.get ry
    if y = 0 then .error .divisionByZero else .ok (m.save rd (x / y), [])
  | .cmp rx ry _ => do
    let x ← m.get rx
    let y ← m.get ry
    .ok ({ m with flags := setFlagsMask m.flags x y }, [])
  | .con rd v => .ok (m.save rd v, [])
  | .mov rd rx => do
    let x ← m.get rx
    .ok (m.save rd x, [])
  | .not rd rx => do
    let x ← m.get rx
    .ok (m.save rd (x ^^^ 4294967295), [])
  | .bra l =>
    match m.findLabel l with
    | none => .error (.missingLabel l)
    | some idx => .ok ({ m with pc := idx }, [])
  | .yld rx => do
    let x ← m.get rx
    .ok (m, [Message.yieldMsg x])
  | .lbl _ => .ok (m, [])
  | .chk f =>
    if Flags.contains m.flags f then .ok (m, [])
    else .ok ({ m with pc := m.pc + 1 }, [])
  | .str data addr mode => do
    let v ← m.get data
    let m1 ← m.store addr v mode
    .ok (m1, [])
  | .ldr rd addr mode => do
    let (v, m1) ← m.load addr mode
    .ok (m1.save rd v, [])

/-- Result of a single fetch-execute step. -/
inductive StepRes where
  | done
  | fatal (e : VMErr)
  | next (m : Machine) (out : List Message)
deriving DecidableEq, Repr

/-- Machine::step - fetch, process, and advance the pc by one. -/
def Machine.step (m : Machine) : StepRes :=
  match m.instructions[m.pc]? with
  | none => .done
  | some i =>
    match m.process i with
    | .error e => .fatal e
    | .ok (m', out) => .next { m' with pc := m'.pc + 1 } out

/-- Terminal status of a fuelled run. -/
inductive RunEnd where
  | finished
  | fatal (e : VMErr)
  | outOfFuel
deriving DecidableEq, Repr

/-- Machine::run with fuel: the collected messages (a final Done exactly
when the loop terminates normally) and how the run ended.  A source panic
produces no Done and closes the channel. -/
def Machine.runFuel : Nat → Machine → List Message × RunEnd
  | 0, _ => ([], .outOfFuel)
  | fuel + 1, m =>
    match m.step with
    | .done => ([Message.done], .finished)
    | .fatal e => ([], .fatal e)
    | .next m' out =>
      let (ms, e) := Machine.runFuel fuel m'
      (out ++ ms, e)

/-- States reachable from a given machine by successful steps. -/
inductive ReachableFrom (m0 : Machine) : Machine → Prop where
  | refl : ReachableFrom m0 m0
  | tail {m m' : Machine} {out : List Message} :
      ReachableFrom m0 m → m.step = .next m' out → ReachableFrom m0 m'

/-! ## Tokens (src/lead/src/lex/token.rs) -/

/-- Token kinds. -/
inductive TokenType where
  | leftParen | rightParen | leftBrace | rightBrace | leftSquare | rightSquare
  | comma | dot | minus | plus | slash | star | semicolon
  | lessThan | greaterThan | lessThanEq | greaterThanEq | eqEq | colon | assign
  | bang | bangEq
  | identifier (name : String)
  | char (c : Char)
  | number (n : Nat)
  | bool (b : Bool)
  | letK | ifK | forK | whileK | yieldK
  | eof
deriving DecidableEq, Repr

/-- A token: kind plus span range. -/
structure Token where
  token_type : TokenType
  span : SpanR
deriving DecidableEq, Repr

/-- The language error taxonomy (error.rs LangError), spans omitted. -/
inductive LangErr where
  | unexpectedToken (found : TokenType)
  | expectedToken (expected found : TokenType)
  | unexpectedEndOfFile (expected : String)
  | invalidLiteral (found : TokenType)
  | invalidUnaryOperator (op : TokenType)
  | invalidBinaryOperator (op : TokenType)
  | unmatchedDelimiter (expected found : TokenType)
  | invalidLexeme (lexeme : String)
  | invalidCharacterLiteral
  | invalidNumberLiteral
  | invalidIdentifier (idLiteral : String)
  | uninitialisedVariable (name : String)
  | uninitialisedPointer (name : String)
  | nullValueExpression
  | internalPanic (msg : String)
  | outOfFuel
deriving DecidableEq, Repr

/-! ## AST (src/lead/src/parse/ast.rs) -/

/-- Operator types. -/
inductive OperatorType where
  | plus | minus | divide | multiply
  | lessThan | greaterThan | lessThanEq | greaterThanEq
  | equal | not | notEqual
deriving DecidableEq, Repr

/-- AST literals (Number is an i32). -/
inductive Literal where
  | boolean (val : Bool) (span : SpanR)
  | char (val : Char) (span : SpanR)
  | number (val : Int) (span : SpanR)
deriving DecidableEq, Repr

mutual

/-- AST expressions; Identifier's name and span are flattened into the
constructors. -/
inductive Expression where
  | app (app : Application)
  | group (expr : Expression) (span : SpanR)
  | literal (lit : Literal)
  | identifier (name : String) (span : SpanR)
  | array (elements : List Expression) (span : SpanR)
  | index (varName : String) (varSpan : SpanR) (idx : Expression) (span : SpanR)

/-- Unary and binary operator applications. -/
inductive Application where
  | unary (op : OperatorType) (expr : Expression) (span : SpanR)
  | binary (op : OperatorType) (left right : Expression) (span : SpanR)

end

/-- AST statements; the Let/Mutate/If/While structs are flattened into
the constructors. -/
inductive Statement where
  | letS (varName : String) (value : Expression) (span : SpanR)
  | mutate (varName : String) (value : Expression) (span : SpanR)
  | expr (e : Expression)
  | ifS (condition : Expression) (body : List Statement) (span : SpanR)
  | whileS (condition : Expression) (body : List Statement) (span : SpanR)
  | yieldS (e : Expression)

/-- Span of a literal. -/
def Literal.spanOf : Literal → SpanR
  | .boolean _ sp => sp
  | .char _ sp => sp
  | .number _ sp => sp

/-- Span of an application. -/
def Application.spanOf : Application → SpanR
  | .unary _ _ sp => sp
  | .binary _ _ _ sp => sp

/-- Span of an expression. -/
def Expression.spanOf : Expression → SpanR
  | .app a => a.spanOf
  | .group _ sp => sp
  | .literal l => l.spanOf
  | .identifier _ sp => sp
  | .array _ sp => sp
  | .index _ _ _ sp => sp

/-! ## Segments (modelled from src/src/air/segment.rs, the draft whose
methods the lead lowering calls; the lead crate's own segment.rs file is
absent from the snapshot) -/

/-- A segment: either a block of instructions with a span, or a
subprogram of nested segments; both carry an output register. -/
inductive Segment where
  | subProgram (segments : List Segment) (outputRegister : Option Reg)
  | block (instructions : List Instruction) (outputRegister : Option Reg) (span : SpanR)

/-- Output-register replacement used by append operations:
`output_register.replace(reg)` when the instruction produces a value. -/
def replaceIfSome (out : Option Reg) (i : Instruction) : Option Reg :=
  match i.output_register with
  | none => out
  | some r => some r

/-- Segment::output_register. -/
def Segment.output_register : Segment → Option Reg
  | .subProgram _ out => out
  | .block _ out _ => out

/-- Segment::block_from_inst. -/
def Segment.block_from_inst (i : Instruction) (sp : SpanR) : Segment :=
  .block [i] i.output_register sp

/-- Segment::empty_block. -/
def Segment.empty_block : Segment :=
  .block [] none (0, 0)

/-- Segment::subprogram_from_segment. -/
def Segment.subprogram_from_segment (s : Segment) : Segment :=
  .subProgram [s] s.output_register

/-- Segment::subprogram_from_inst. -/
def Segment.subprogram_from_inst (i : Instruction) (sp : SpanR) : Segment :=
  .subProgram [Segment.block_from_inst i sp] i.output_register

mutual

/-- Segment::append_inst: blocks push the instruction and stretch their
span; subprograms delegate to their last segment (or start a fresh
block). -/
def Segment.append_inst : Segment → Instruction → SpanR → Segment
  | .block insts out sp, i, isp => .block (insts ++ [i]) (replaceIfSome out i) (sp.1, isp.2)
  | .subProgram segs out, i, isp =>
    .subProgram (Segment.appendInstLast segs i isp) (replaceIfSome out i)

/-- Append an instruction into the last segment of a list. -/
def Segment.appendInstLast : List Segment → Instruction → SpanR → List Segment
  | [], i, isp => [Segment.block_from_inst i isp]
  | [s], i, isp => [s.append_inst i isp]
  | s :: rest, i, isp => s :: Segment.appendInstLast rest i isp

end

/-- Segment::append_segment: push onto a subprogram (wrapping a block
first), or-updating the output register. -/
def Segment.append_segment : Segment → Segment → Segment
  | .subProgram segs out, seg =>
    .subProgram (segs ++ [seg])
      (match seg.output_register with
       | some r => some r
       | none => out)
  | .block insts out sp, seg =>
    .subProgram [Segment.block insts out sp, seg]
      (match seg.output_register with
       | some r => some r
       | none => out)

/-- Segment::set_span: only blocks track a span. -/
def Segment.set_span : Segment → SpanR → Segment
  | .block insts out _, sp => .block insts out sp
  | s, _ => s

/-- Segment::set_output_register. -/
def Segment.set_output_register : Segment → Reg → Segment
  | .subProgram segs _, r => .subProgram segs (some r)
  | .block insts _ sp, r => .block insts (some r) sp

/-- Segment::span: Some for blocks, None for subprograms (the unchecked
variant panics there). -/
def Segment.span? : Segment → Option SpanR
  | .block _ _ sp => some sp
  | .subProgram _ _ => none

mutual

/-- Segment::flatten. -/
def Segment.flatten : Segment → List Instruction
  | .block insts _ _ => insts
  | .subProgram segs _ => Segment.flattenList segs

/-- Flatten a list of segments. -/
def Segment.flattenList : List Segment → List Instruction
  | [] => []
  | s :: rest => s.flatten ++ Segment.flattenList rest

end

/-- Segment::latest_flag_hint - the hint of the most recent CMP carrying
one, scanning the flattened instructions in reverse. -/
def Segment.latest_flag_hint (s : Segment) : Option Flag :=
  s.flatten.reverse.findSome? fun i =>
    match i with
    | .cmp _ _ (some f) => some f
    | _ => none

mutual

/-- The Extend impl for Segment: blocks append the instructions and
or-update the output register from the last instruction of the extended
list; subprograms delegate into their last segment without touching
their own output register. -/
def Segment.extendI : Segment → List Instruction → Segment
  | .block insts out sp, l =>
    .block (insts ++ l)
      (match (insts ++ l).getLast? with
       | none => out
       | some last => replaceIfSome out last) sp
  | .subProgram segs out, l =>
    .subProgram (Segment.extendLast segs l) out

/-- Extend the last segment of a list (or start a fresh block; the fresh
case inlines extending Segment::empty_block). -/
def Segment.extendLast : List Segment → List Instruction → List Segment
  | [], l =>
    [Segment.block l
      (match l.getLast? with
       | none => none
       | some last => replaceIfSome none last) (0, 0)]
  | [s], l => [s.extendI l]
  | s :: rest, l => s :: Segment.extendLast rest l

end

/-- Modelled from the spec: Segment::append_inst_as_block is declared in
the lead crate's segment module, whose file is absent from the snapshot;
per its call sites in While::lower and Expression::lower it appends the
instruction as a block of its own at the end of the (sub)program. -/
def Segment.append_inst_as_block (s : Segment) (i : Instruction) (sp : SpanR) : Segment :=
  s.append_segment (Segment.block_from_inst i sp)

/-- The span join performed by Application::lower:
`rx_block.span_unchecked_mut().join(ry_block.span_unchecked())`; panics
(None) unless both segments are blocks. -/
def Segment.joinSpanUnchecked : Segment → Segment → Option Segment
  | .block insts out sp, other =>
    match other.span? with
    | some sp2 => some (.block insts out (joinSpans sp sp2))
    | none => none
  | .subProgram _ _, _ => none

/-! ## The IR generator (src/lead/src/air/mod.rs) -/

/-- Association-list lookup modelling HashMap::get on the two symbol
tables. -/
def alookup {α : Type} : List (String × α) → String → Option α
  | [], _ => none
  | (k, v) :: rest, q => if k = q then some v else alookup rest q

/-- GenerationState: the register counter, the two symbol tables, the
memory address counter, and a counter standing in for the stream of
fresh v4 UUIDs used for labels. -/
structure GenerationState where
  next_reg : Reg
  vars : List (String × Reg)
  pointers : List (String × Nat)
  next_mem_addr : Nat
  next_label : Nat
deriving DecidableEq, Repr

/-- GenerationState::new. -/
def GenerationState.new : GenerationState :=
  { next_reg := 0, vars := [], pointers := [], next_mem_addr := 0, next_label := 0 }

/-- GenerationState::next_register. -/
def GenerationState.nextRegister (s : GenerationState) : Reg × GenerationState :=
  (s.next_reg, { s with next_reg := s.next_reg + 1 })

/-- GenerationState::next_mem_addr (the method): take the current address
and advance the counter by the word size, 4. -/
def GenerationState.nextMemAddr (s : GenerationState) : Nat × GenerationState :=
  (s.next_mem_addr, { s with next_mem_addr := s.next_mem_addr + 4 })

/-- GenerationState::initialise_variable (HashMap::insert). -/
def GenerationState.initialiseVariable (s : GenerationState) (v : String) (r : Reg) :
    GenerationState :=
  { s with vars := (v, r) :: s.vars }

/-- GenerationState::initialise_pointer (HashMap::insert). -/
def GenerationState.initialisePointer (s : GenerationState) (v : String) (p : Nat) :
    GenerationState :=
  { s with pointers := (v, p) :: s.pointers }

/-- GenerationState::variable_register lookup (the Err case is produced
at the call sites below). -/
def GenerationState.variableRegister (s : GenerationState) (v : String) : Option Reg :=
  alookup s.vars v

/-- GenerationState::deref_pointer lookup. -/
def GenerationState.derefPointer (s : GenerationState) (v : String) : Option Nat :=
  alookup s.pointers v

/-- Take a fresh label uuid (models Uuid::new_v4). -/
def GenerationState.freshLabel (s : GenerationState) : Nat × GenerationState :=
  (s.next_label, { s with next_label := s.next_label + 1 })

/-- Result of a lowering step: like Rust's Result, but carrying the
final generator state in both outcomes, since the Rust code threads the
state by mutable reference (an error leaves it as it stood). -/
inductive LRes (α : Type) where
  | okL (val : α) (state : GenerationState)
  | errL (e : LangErr) (state : GenerationState)
deriving DecidableEq, Repr

/-- Literal::lower: allocate a register and emit CON with the value cast
to u32. -/
def Literal.lower (l : Literal) (s : GenerationState) : LRes Segment :=
  let (reg, s1) := s.nextRegister
  match l with
  | .char v sp => .okL (Segment.block_from_inst (.con reg v.toNat) sp) s1
  | .number v sp => .okL (Segment.block_from_inst (.con reg (wrap32 v)) sp) s1
  | .boolean v sp => .okL (Segment.block_from_inst (.con reg (if v then 1 else 0)) sp) s1

/-- Identifier::lower: no instruction; an empty block whose span and
output register point at the variable's register, or an
uninitialised-variable error (leaving the state unchanged). -/
def Identifier.lower (name : String) (sp : SpanR) (s : GenerationState) : LRes Segment :=
  match s.variableRegister name with
  | some r => .okL ((Segment.empty_block.set_span sp).set_output_register r) s
  | none => .errL (.uninitialisedVariable name) s

mutual

/-- Application::lower. -/
def Application.lower (a : Application) (s : GenerationState) : LRes Segment :=
  match a with
  | .unary op e sp =>
    match Expression.lower e s with
    | .errL er s1 => .errL er s1
    | .okL blk s1 =>
      match blk.output_register with
      | none => .errL (.internalPanic "expected expr to have Some() output register") s1
      | some bor =>
        match op with
        | .not =>
          let (r, s2) := s1.nextRegister
          .okL (blk.append_inst (.not r bor) sp) s2
        | .minus =>
          let (rx, s2) := s1.nextRegister
          let blk1 := blk.append_inst (.con rx 0) sp
          let (rd, s3) := s2.nextRegister
          .okL (blk1.append_inst (.sub rd rx bor) sp) s3
        | _ => .errL (.internalPanic "unreachable") s1
  | .binary op l r sp =>
    match Expression.lower l s with
    | .errL er s1 => .errL er s1
    | .okL rxBlk s1 =>
      match rxBlk.output_register with
      | none => .errL (.internalPanic "expected expr to have Some() output register") s1
      | some rx =>
        match Expression.lower r s1 with
        | .errL er s2 => .errL er s2
        | .okL ryBlk s2 =>
          match ryBlk.output_register with
          | none => .errL (.internalPanic "expected expr to have Some() output register") s2
          | some ry =>
            match rxBlk.joinSpanUnchecked ryBlk with
            | none => .errL (.internalPanic "unchecked span on SubProgram") s2
            | some rxBlk1 =>
              let rxBlk2 := rxBlk1.extendI ryBlk.flatten
              match op with
              | .plus =>
                let (rd, s3) := s2.nextRegister
                .okL (rxBlk2.append_inst (.add rd rx ry) sp) s3
              | .minus =>
                let (rd, s3) := s2.nextRegister
                .okL (rxBlk2.append_inst (.sub rd rx ry) sp) s3
              | .multiply =>
                let (rd, s3) := s2.nextRegister
                .okL (rxBlk2.append_inst (.mul rd rx ry) sp) s3
              | .divide =>
                let (rd, s3) := s2.nextRegister
                .okL (rxBlk2.append_inst (.div rd rx ry) sp) s3
              | .lessThan => .okL (rxBlk2.append_inst (.cmp rx ry (some .lt)) sp) s2
              | .lessThanEq => .okL (rxBlk2.append_inst (.cmp rx ry (some .le)) sp) s2
              | .greaterThan => .okL (rxBlk2.append_inst (.cmp rx ry (some .gt)) sp) s2
              | .greaterThanEq => .okL (rxBlk2.append_inst (.cmp rx ry (some .ge)) sp) s2
              | .notEqual => .okL (rxBlk2.append_inst (.cmp rx ry (some .ne)) sp) s2
              | .equal => .okL (rxBlk2.append_inst (.cmp rx ry (some .eq)) sp) s2
              | .not => .errL (.internalPanic "OperatorType::Not is a unary operator") s2

/-- Expression::lower. -/
def Expression.lower (e : Expression) (s : GenerationState) : LRes Segment :=
  match e with
  | .literal lit => Literal.lower lit s
  | .app a => Application.lower a s
  | .group inner _ => Expression.lower inner s
  | .identifier name sp => Identifier.lower name sp s
  | .array elements sp =>
    let (regIndex, s1) := s.nextRegister
    let (offset, s2) := s1.nextRegister
    let (addr, s3) := s2.nextMemAddr
    let ai := Segment.empty_block.append_inst (.con regIndex addr) sp
    let ai := ai.append_inst (.con offset 4) sp
    Expression.lowerArrayElems elements ai regIndex offset sp s3
  | .index varName _varSp idxExpr sp =>
    match s.derefPointer varName with
    | none => .errL (.uninitialisedPointer varName) s
    | some baseAddr =>
      let (rBase, s1) := s.nextRegister
      let blk0 := Segment.subprogram_from_inst (.con rBase baseAddr) sp
      match Expression.lower idxExpr s1 with
      | .errL er s2 => .errL er s2
      | .okL idxSeg s2 =>
        let blk1 := blk0.append_segment idxSeg
        match blk1.output_register with
        | none => .errL (.internalPanic "unchecked output register") s2
        | some rIdxOut =>
          let (rWord, s3) := s2.nextRegister
          let blk2 := blk1.append_inst (.con rWord 4) idxExpr.spanOf
          let (rIndex, s4) := s3.nextRegister
          let blk3 := blk2.append_inst (.mul rIndex rIdxOut rWord) idxExpr.spanOf
          let (rData, s5) := s4.nextRegister
          let blk4 := blk3.append_inst_as_block (.ldr rData rBase (.offset rIndex)) sp
          .okL (blk4.set_output_register rData) s5

/-- The element loop of the array-literal arm: lower each element, then
emit a post-incrementing store through the base register. -/
def Expression.lowerArrayElems (elements : List Expression) (ai : Segment)
    (regIndex offset : Reg) (sp : SpanR) (s : GenerationState) : LRes Segment :=
  match elements with
  | [] => .okL ai s
  | e :: rest =>
    match Expression.lower e s with
    | .errL er s1 => .errL er s1
    | .okL val s1 =>
      let ai1 := ai.append_segment val
      match ai1.output_register with
      | none => .errL (.internalPanic "unchecked output register") s1
      | some r =>
        let ai2 := ai1.append_inst (.str r regIndex (.postOffset offset)) sp
        Expression.lowerArrayElems rest ai2 regIndex offset sp s1

end

mutual

/-- Statement::lower (including the Let, Mutate, If and While impls). -/
def Statement.lower (st : Statement) (s : GenerationState) : LRes Segment :=
  match st with
  | .expr e => Expression.lower e s
  | .letS v value _ =>
    match value with
    | .array _ _ =>
      let baseMemAddr := s.next_mem_addr
      let s1 := s.initialisePointer v baseMemAddr
      Expression.lower value s1
    | _ =>
      match Expression.lower value s with
      | .errL er s1 => .errL er s1
      | .okL blk s1 =>
        match blk.output_register with
        | some r => .okL blk (s1.initialiseVariable v r)
        | none => .errL .nullValueExpression s1
  | .mutate v value sp =>
    match Expression.lower value s with
    | .errL er s1 => .errL er s1
    | .okL blk s1 =>
      match s1.variableRegister v with
      | none => .errL (.uninitialisedVariable v) s1
      | some vr =>
        match blk.output_register with
        | some r => .okL (blk.append_inst (.mov vr r) sp) s1
        | none => .errL .nullValueExpression s1
  | .yieldS e =>
    match Expression.lower e s with
    | .errL er s1 => .errL er s1
    | .okL blk s1 =>
      match blk.output_register with
      | none => .okL blk s1
      | some r =>
        match blk.span? with
        | none => .errL (.internalPanic "unchecked span on SubProgram") s1
        | some sp => .okL (blk.append_inst (.yld r) sp) s1
  | .ifS cond body sp =>
    match Expression.lower cond s with
    | .errL er s1 => .errL er s1
    | .okL condSeg s1 =>
      let ifSeg := Segment.subprogram_from_segment condSeg
      let ifSeg := ifSeg.append_inst
        (.chk (match ifSeg.latest_flag_hint with
               | some f => f
               | none => Flag.nv)) cond.spanOf
      let (u, s2) := s1.freshLabel
      let ifLabel : Label := ⟨u, .ifL⟩
      let branchIf := Segment.block_from_inst (.bra ifLabel) sp
      let subProgIf := Segment.subprogram_from_inst (.lbl ifLabel) sp
      match Statement.lowerSeq body subProgIf s2 with
      | .errL er s3 => .errL er s3
      | .okL subProgIf1 s3 =>
        .okL ((ifSeg.append_segment branchIf).append_segment subProgIf1) s3
  | .whileS cond body _ =>
    let (u, s1) := s.freshLabel
    let checkConditionLabel : Label := ⟨u, .checkCondition⟩
    let ccb := Segment.block_from_inst (.lbl checkConditionLabel) cond.spanOf
    match Expression.lower cond s1 with
    | .errL er s2 => .errL er s2
    | .okL condSeg s2 =>
      let ccb := ccb.extendI condSeg.flatten
      let loopLabel : Label := ⟨u, .loopL⟩
      let breakLabel : Label := ⟨u, .breakL⟩
      let ccb := ccb.append_inst
        (.chk (match ccb.latest_flag_hint with
               | some f => f
               | none => Flag.nv)) cond.spanOf
      let ccb := ccb.append_inst (.bra loopLabel) cond.spanOf
      let ccb := ccb.append_inst (.bra breakLabel) cond.spanOf
      let whileLoop := Segment.subprogram_from_segment ccb
      match Statement.lowerSeq body whileLoop s2 with
      | .errL er s3 => .errL er s3
      | .okL whileLoop1 s3 =>
        let whileLoop2 := whileLoop1.append_inst_as_block (.bra checkConditionLabel) cond.spanOf
        .okL (whileLoop2.append_inst_as_block (.lbl breakLabel) cond.spanOf) s3

/-- The statement loops of If::lower and While::lower: lower each body
statement and append its segment. -/
def Statement.lowerSeq (body : List Statement) (acc : Segment) (s : GenerationState) :
    LRes Segment :=
  match body with
  | [] => .okL acc s
  | st :: rest =>
    match Statement.lower st s with
    | .errL er s1 => .errL er s1
    | .okL seg s1 => Statement.lowerSeq rest (acc.append_segment seg) s1

end

/-- generate_program: lower each top-level statement to a segment. -/
def generate_program (statements : List Statement) (s : GenerationState) :
    LRes (List Segment) :=
  match statements with
  | [] => .okL [] s
  | st :: rest =>
    match Statement.lower st s with
    | .errL er s1 => .errL er s1
    | .okL seg s1 =>
      match generate_program rest s1 with
      | .errL er s2 => .errL er s2
      | .okL segs s2 => .okL (seg :: segs) s2

/-- Pipeline::build: generate the segments and flatten them into the
final instruction list. -/
def buildProgram (statements : List Statement) (s : GenerationState) :
    LRes (List Instruction) :=
  match generate_program statements s with
  | .errL er s1 => .errL er s1
  | .okL segs s1 => .okL (Segment.flattenList segs) s1

/-- The generator state carried by a lowering result (ok or err). -/
def LRes.stateOf {α : Type} : LRes α → GenerationState
  | .okL _ s => s
  | .errL _ s => s

/-- Whether a lowering result is ok. -/
def LRes.isOk {α : Type} : LRes α → Bool
  | .okL _ _ => true
  | .errL _ _ => false

/-- Statement lowering with the produced segment flattened (for stating
concrete instruction sequences). -/
def Statement.lowerFlat (st : Statement) (s : GenerationState) : LRes (List Instruction) :=
  match Statement.lower st s with
  | .okL seg s1 => .okL seg.flatten s1
  | .errL e s1 => .errL e s1

/-- Expression lowering with the produced segment flattened. -/
def Expression.lowerFlat (e : Expression) (s : GenerationState) : LRes (List Instruction) :=
  match Expression.lower e s with
  | .okL seg s1 => .okL seg.flatten s1
  | .errL e s1 => .errL e s1

/-! ## Symbol tables are only written by let and mutate statements -/

/-- Allocating a register leaves every other state field unchanged. -/
theorem nextRegister_fields (s : GenerationState) :
    (s.nextRegister).2.vars = s.vars ∧ (s.nextRegister).2.pointers = s.pointers ∧
    (s.nextRegister).2.next_mem_addr = s.next_mem_addr :=
  ⟨rfl, rfl, rfl⟩

mutual

/-- Application lowering never writes the symbol tables. -/
theorem appLower_preserves (a : Application) (s : GenerationState) :
    (Application.lower a s).stateOf.vars = s.vars ∧
    (Application.lower a s).stateOf.pointers = s.pointers := by
  cases a with
  | unary op e sp =>
    have hIH := exprLower_preserves e s
    simp only [Application.lower]
    split
    case h_1 er s1 heq =>
      rw [heq] at hIH
      exact hIH
    case h_2 blk s1 heq =>
      rw [heq] at hIH
      simp only [LRes.stateOf] at hIH
      split
      · simpa [LRes.stateOf] using hIH
      · cases op <;> simp [LRes.stateOf, GenerationState.nextRegister] <;> exact hIH
  | binary op l r sp =>
    have hL := exprLower_preserves l s
    simp only [Application.lower]
    split
    case h_1 er s1 heq =>
      rw [heq] at hL
      exact hL
    case h_2 blk s1 heq =>
      rw [heq] at hL
      simp only [LRes.stateOf] at hL
      split
      · simpa [LRes.stateOf] using hL
      case h_2 rx hrx =>
        have hR := exprLower_preserves r s1
        split
        case h_1 er s2 heq2 =>
          rw [heq2] at hR
          simp only [LRes.stateOf] at hR
          simp only [LRes.stateOf]
          exact ⟨hR.1.trans hL.1, hR.2.trans hL.2⟩
        case h_2 ryBlk s2 heq2 =>
          rw [heq2] at hR
          simp only [LRes.stateOf] at hR
          have hs2 : s2.vars = s.vars ∧ s2.pointers = s.pointers :=
            ⟨hR.1.trans hL.1, hR.2.trans hL.2⟩
          split
          · simpa [LRes.stateOf] using hs2
          split
          · simpa [LRes.stateOf] using hs2
          cases op <;> simp [LRes.stateOf, GenerationState.nextRegister] <;> exact hs2

/-- Expression lowering never writes the symbol tables. -/
theorem exprLower_preserves (e : Expression) (s : GenerationState) :
    (Expression.lower e s).stateOf.vars = s.vars ∧
    (Expression.lower e s).stateOf.pointers = s.pointers := by
  cases e with
  | literal lit =>
    cases lit <;>
      simp [Expression.lower, Literal.lower, GenerationState.nextRegister, LRes.stateOf]
  | app a => simpa only [Expression.lower] using appLower_preserves a s
  | group inner sp => simpa only [Expression.lower] using exprLower_preserves inner s
  | identifier name sp =>
    simp only [Expression.lower, Identifier.lower]
    split <;> simp [LRes.stateOf]
  | array elements sp =>
    simp only [Expression.lower]
    exact Expression.lowerArrayElems_preserves elements _ _ _ _ _
  | index v vsp idxExpr sp =>
    simp only [Expression.lower]
    split
    · simp [LRes.stateOf]
    case h_2 baseAddr hbase =>
      have hIH := exprLower_preserves idxExpr ((s.nextRegister).2)
      split
      case h_1 er s2 heq =>
        rw [heq] at hIH
        exact hIH
      case h_2 idxSeg s2 heq =>
        rw [heq] at hIH
        simp only [LRes.stateOf] at hIH
        split
        · simpa [LRes.stateOf] using hIH
        · simp [LRes.stateOf, GenerationState.nextRegister]
          exact hIH

/-- The array-element loop never writes the symbol tables. -/
theorem Expression.lowerArrayElems_preserves (elements : List Expression) (ai : Segment)
    (regIndex offset : Reg) (sp : SpanR) (s : GenerationState) :
    (Expression.lowerArrayElems elements ai regIndex offset sp s).stateOf.vars = s.vars ∧
    (Expression.lowerArrayElems elements ai regIndex offset sp s).stateOf.pointers =
      s.pointers := by
  cases elements with
  | nil => simp [Expression.lowerArrayElems, LRes.stateOf]
  | cons e rest =>
    have hIH := exprLower_preserves e s
    simp only [Expression.lowerArrayElems]
    split
    case h_1 er s1 heq =>
      rw [heq] at hIH
      exact hIH
    case h_2 val s1 heq =>
      rw [heq] at hIH
      simp only [LRes.stateOf] at hIH
      split
      · simpa [LRes.stateOf] using hIH
      case h_2 r hr =>
        have hrest := Expression.lowerArrayElems_preserves rest
          ((ai.append_segment val).append_inst (.str r regIndex (.postOffset offset)) sp)
          regIndex offset sp s1
        exact ⟨hrest.1.trans hIH.1, hrest.2.trans hIH.2⟩

end

/-! ## Array allocation accounting (claims C5, C10, C2) -/

/-- Output register of an appended segment: the appended segment's
output register when it has one, else the receiver's. -/
theorem append_segment_out (a b : Segment) :
    (a.append_segment b).output_register =
      match b.output_register with
      | some r => some r
      | none => a.output_register := by
  cases a <;> rfl

/-- The u32 value a literal lowers into a CON instruction. -/
def litU32 : Literal → Nat
  | .boolean v _ => if v then 1 else 0
  | .char c _ => c.toNat
  | .number v _ => wrap32 v

/-- One pass of the array-element loop on a literal element: lower the
literal, append its block, and emit the post-incrementing store. -/
theorem lowerArrayElems_cons_literal (l : Literal) (restE : List Expression) (ai : Segment)
    (ri off : Reg) (sp : SpanR) (s : GenerationState) :
    Expression.lowerArrayElems (Expression.literal l :: restE) ai ri off sp s =
      Expression.lowerArrayElems restE
        (Segment.append_inst
          (Segment.append_segment ai
            (Segment.block_from_inst (.con s.next_reg (litU32 l)) l.spanOf))
          (.str s.next_reg ri (.postOffset off)) sp)
        ri off sp { s with next_reg := s.next_reg + 1 } := by
  cases ai <;> cases l <;> rfl

/-- The array-element loop on literal elements always succeeds and moves
neither the memory-address counter nor the symbol tables, whatever the
number of elements. -/
theorem lowerArrayElems_literals (lits : List Literal) :
    ∀ (ai : Segment) (ri off : Reg) (sp : SpanR) (s : GenerationState),
    ∃ seg s1,
      Expression.lowerArrayElems (lits.map Expression.literal) ai ri off sp s = .okL seg s1
      ∧ s1.next_mem_addr = s.next_mem_addr ∧ s1.vars = s.vars ∧ s1.pointers = s.pointers := by
  induction lits with
  | nil =>
    intro ai ri off sp s
    exact ⟨ai, s, rfl, rfl, rfl, rfl⟩
  | cons l rest ih =>
    intro ai ri off sp s
    rw [List.map_cons, lowerArrayElems_cons_literal]
    obtain ⟨seg, s1, hEq, h1, h2, h3⟩ := ih
      (Segment.append_inst
        (Segment.append_segment ai
          (Segment.block_from_inst (.con s.next_reg (litU32 l)) l.spanOf))
        (.str s.next_reg ri (.postOffset off)) sp)
      ri off sp { s with next_reg := s.next_reg + 1 }
    exact ⟨seg, s1, hEq, h1, h2, h3⟩

/-- C5 (amended): lowering an array literal of scalar (literal) elements
advances next_mem_addr by exactly one word, 4 bytes, regardless of the
element count; a let of an array literal records the pointer from the
value of next_mem_addr taken before lowering; consequently the second of
two consecutively lowered array literals starts 4 bytes after the first
(their runtime regions of 4 x n bytes overlap whenever the first has
more than one element), as the concrete two-program run shows. -/
theorem array_alloc_amended (lits : List Literal) (sp : SpanR) (s : GenerationState) :
    (∃ seg s1,
      Expression.lower (.array (lits.map Expression.literal) sp) s = .okL seg s1
      ∧ s1.next_mem_addr = s.next_mem_addr + 4
      ∧ s1.vars = s.vars ∧ s1.pointers = s.pointers)
    ∧ (∀ (v : String) (spL : SpanR), ∃ seg s1,
        Statement.lower (.letS v (.array (lits.map Expression.literal) sp) spL) s = .okL seg s1
        ∧ s1.derefPointer v = some s.next_mem_addr
        ∧ s1.next_mem_addr = s.next_mem_addr + 4)
    ∧ (buildProgram
        [.letS "a" (.array [.literal (.number 1 (9, 10)), .literal (.number 2 (12, 13))] (8, 14)) (0, 14),
         .letS "b" (.array [.literal (.number 3 (25, 26))] (24, 27)) (16, 27)]
        GenerationState.new).stateOf.pointers = [("b", 4), ("a", 0)] := by
  have key : ∀ (s0 : GenerationState), ∃ seg s1,
      Expression.lower (.array (lits.map Expression.literal) sp) s0 = .okL seg s1
      ∧ s1.next_mem_addr = s0.next_mem_addr + 4
      ∧ s1.vars = s0.vars ∧ s1.pointers = s0.pointers := by
    intro s0
    obtain ⟨seg, s1, hEq, h1, h2, h3⟩ := lowerArrayElems_literals lits
      ((Segment.empty_block.append_inst (.con s0.next_reg s0.next_mem_addr) sp).append_inst
        (.con (s0.next_reg + 1) 4) sp)
      s0.next_reg (s0.next_reg + 1) sp
      { s0 with next_reg := s0.next_reg + 1 + 1, next_mem_addr := s0.next_mem_addr + 4 }
    exact ⟨seg, s1, hEq, h1, h2, h3⟩
  refine ⟨key s, ?_, rfl⟩
  intro v spL
  obtain ⟨seg, s1, hEq, h1, h2, h3⟩ := key (s.initialisePointer v s.next_mem_addr)
  refine ⟨seg, s1, hEq, ?_, h1⟩
  have hp : s1.pointers = (v, s.next_mem_addr) :: s.pointers := h3
  simp [GenerationState.derefPointer, hp, alookup]

/-- C5 counterexample: lowering the two-element array literal [1, 2]
from the fresh generator state advances next_mem_addr by 4, not by
4 x 2 as the claim states. -/
theorem array_alloc_counterexample :
    (Expression.lowerFlat
      (.array [.literal (.number 1 (9, 10)), .literal (.number 2 (12, 13))] (8, 14))
      GenerationState.new).stateOf.next_mem_addr = 4
    ∧ (4 : Nat) ≠ 4 * 2 :=
  ⟨rfl, by decide⟩

/-- The while statement `while r < 5 { }` with `r` bound to register 0:
the concrete input on which While::lower is evaluated. -/
def c2WhileInput : Statement :=
  .whileS (.app (.binary .lessThan (.identifier "r" (6, 7)) (.literal (.number 5 (10, 11)))
    (6, 11))) [] (0, 14)

/-- Generator state with `r` initialised to register 0. -/
def c2StateInput : GenerationState :=
  { next_reg := 1, vars := [("r", 0)], pointers := [], next_mem_addr := 0, next_label := 0 }

/-- The instruction sequence While::lower actually emits for
`while r < 5 { }`. -/
def c2Emitted : List Instruction :=
  [.lbl ⟨0, .checkCondition⟩, .con 1 5, .cmp 0 1 (some .lt), .chk .lt,
   .bra ⟨0, .loopL⟩, .bra ⟨0, .breakL⟩, .bra ⟨0, .checkCondition⟩, .lbl ⟨0, .breakL⟩]

/-- C2 (code bug): for `while r < 5 { }` the generator emits CHK on the
condition's own flag hint Lt (not its negation Ge as specified), then a
BRA to a fresh `-loop` label and a BRA to the `-break` label; no LBL for
the `-loop` label is ever emitted, so the branch the VM takes whenever
the condition holds names a label that does not occur in the program. -/
theorem while_lower_unlabelled_branch :
    Statement.lowerFlat c2WhileInput c2StateInput =
      .okL c2Emitted
        { next_reg := 2, vars := [("r", 0)], pointers := [], next_mem_addr := 0,
          next_label := 1 }
    ∧ Instruction.chk (Flag.lt.negate) ∉ c2Emitted
    ∧ Instruction.chk Flag.lt ∈ c2Emitted
    ∧ Instruction.bra ⟨0, .loopL⟩ ∈ c2Emitted
    ∧ Instruction.lbl ⟨0, .loopL⟩ ∉ c2Emitted :=
  ⟨rfl, by decide, by decide, by decide, by decide⟩

/-- The generator state after lowering `let v := [1, 2];` from the fresh
state. -/
def c10LetState : GenerationState :=
  (Statement.lower
    (.letS "v" (.array [.literal (.number 1 (9, 10)), .literal (.number 2 (12, 13))] (8, 14))
      (0, 14)) GenerationState.new).stateOf

/-- C10: a let whose right-hand side is an array literal records the
name only in the pointer table, never in the scalar-variable table; an
index expression on the name afterwards lowers successfully, while any
use of the name as a plain identifier fails with an
uninitialised-variable error that leaves the generator state
unchanged. -/
theorem let_array_pointer_only :
    (∀ (name : String) (elems : List Expression) (spA spL : SpanR) (s : GenerationState),
      (Statement.lower (.letS name (.array elems spA) spL) s).stateOf.vars = s.vars ∧
      (Statement.lower (.letS name (.array elems spA) spL) s).stateOf.pointers =
        (name, s.next_mem_addr) :: s.pointers)
    ∧ (∀ (s : GenerationState) (name : String) (sp : SpanR),
        s.variableRegister name = none →
        Identifier.lower name sp s = .errL (.uninitialisedVariable name) s)
    ∧ c10LetState.variableRegister "v" = none
    ∧ c10LetState.derefPointer "v" = some 0
    ∧ (Expression.lower (.index "v" (20, 21) (.literal (.number 0 (22, 23))) (20, 24))
        c10LetState).isOk = true
    ∧ Statement.lower (.yieldS (.identifier "v" (32, 33))) c10LetState =
        .errL (.uninitialisedVariable "v") c10LetState := by
  refine ⟨?_, ?_, rfl, rfl, rfl, rfl⟩
  · intro name elems spA spL s
    have h := exprLower_preserves (.array elems spA)
      (s.initialisePointer name s.next_mem_addr)
    exact ⟨h.1, h.2⟩
  · intro s name sp h
    simp [Identifier.lower, GenerationState.variableRegister] at h ⊢
    simp [h]

/-- C10 witness: the uninitialised-identifier clause at a concrete state
with no binding for the name. -/
theorem let_array_pointer_only_witness :
    GenerationState.new.variableRegister "z" = none ∧
    Identifier.lower "z" (0, 1) GenerationState.new =
      .errL (.uninitialisedVariable "z") GenerationState.new :=
  ⟨rfl, let_array_pointer_only.2.1 GenerationState.new "z" (0, 1) rfl⟩

/-! ## Lexer (src/lead/src/lex/mod.rs and token.rs) -/

/-- The Display rendering of a token kind (token.rs), used in error
payloads. -/
def TokenType.display : TokenType → String
  | .leftParen => "("
  | .rightParen => ")"
  | .leftBrace => "\x7b"
  | .rightBrace => "\x7d"
  | .leftSquare => "["
  | .rightSquare => "]"
  | .comma => ","
  | .dot => "."
  | .minus => "-"
  | .plus => "+"
  | .slash => "/"
  | .star => "*"
  | .semicolon => ";"
  | .lessThan => "<"
  | .greaterThan => ">"
  | .lessThanEq => "<="
  | .greaterThanEq => ">="
  | .eqEq => "=="
  | .colon => ":"
  | .assign => ":="
  | .bang => "!"
  | .bangEq => "!="
  | .identifier s => s
  | .char c => String.singleton c
  | .number n => toString n
  | .bool b => toString b
  | .letK => "let"
  | .ifK => "if"
  | .forK => "for"
  | .whileK => "while"
  | .yieldK => "yield"
  | .eof => "EOF"

/-- Token::from for single-character lexemes; None is an InvalidLexeme
(notably a bare equals sign). -/
def charTokenType : Char → Option TokenType
  | '(' => some .leftParen
  | ')' => some .rightParen
  | '{' => some .leftBrace
  | '}' => some .rightBrace
  | '[' => some .leftSquare
  | ']' => some .rightSquare
  | ',' => some .comma
  | '.' => some .dot
  | '-' => some .minus
  | '+' => some .plus
  | '*' => some .star
  | ';' => some .semicolon
  | '!' => some .bang
  | '<' => some .lessThan
  | '>' => some .greaterThan
  | ':' => some .colon
  | '/' => some .slash
  | _ => none

/-- Token::from for the two-character lexemes built by peeking an equals
sign after one of the ambiguous starters. -/
def twoCharTokenType : Char → Option TokenType
  | '!' => some .bangEq
  | '=' => some .eqEq
  | '<' => some .lessThanEq
  | '>' => some .greaterThanEq
  | ':' => some .assign
  | _ => none

/-- Whitespace skipped as trivia. -/
def isWhitespaceC (c : Char) : Bool :=
  c = ' ' || c = '\n' || c = '\t' || c = '\r'

/-- Skip whitespace trivia from an index (the spec states comments are
not supported). -/
def skipTrivia : Nat → List Char → Nat → Nat
  | 0, _, i => i
  | f + 1, src, i =>
    match src.get? i with
    | some c => if isWhitespaceC c then skipTrivia f src (i + 1) else i
    | none => i

/-- Valid non-starting identifier characters
(Lexer::is_valid_identifier_char). -/
def isValidIdentChar (c : Char) : Bool :=
  c = '_' || c.isAlpha || c.isDigit

/-- Collect consecutive characters satisfying a predicate (take_while). -/
def takeWhileFrom : Nat → List Char → Nat → (Char → Bool) → (List Char × Nat)
  | 0, _, i, _ => ([], i)
  | f + 1, src, i, p =>
    match src.get? i with
    | some c =>
      if p c then
        let (cs, j) := takeWhileFrom f src (i + 1) p
        (c :: cs, j)
      else ([], i)
    | none => ([], i)

/-- Decimal value of a digit string (parse_u64). -/
def digitsToNat (cs : List Char) : Nat :=
  cs.foldl (fun acc c => acc * 10 + (c.toNat - 48)) 0

/-- The keyword set (token.rs KEYWORDS). -/
def isKeyword (n : String) : Bool :=
  n = "true" || n = "false" || n = "let" || n = "if" || n = "for" || n = "while" ||
    n = "yield"

/-- Token::from_keyword (with from_bool for the boolean literals). -/
def keywordToken (n : String) (start : Nat) : Token :=
  if n = "true" then ⟨.bool true, (start, start + 4)⟩
  else if n = "false" then ⟨.bool false, (start, start + 5)⟩
  else if n = "if" then ⟨.ifK, (start, start + 2)⟩
  else if n = "let" then ⟨.letK, (start, start + 3)⟩
  else if n = "for" then ⟨.forK, (start, start + 3)⟩
  else if n = "while" then ⟨.whileK, (start, start + 5)⟩
  else ⟨.yieldK, (start, start + 5)⟩

/-- Modelled from the spec: the quoted-character scanner comes from the
external TSPL parse_quoted_char; per the spec the inner character is
parsed with standard escape handling.  Returns the character and the
index one past the closing quote. -/
def parseQuotedChar (src : List Char) (i : Nat) : Option (Char × Nat) :=
  match src.get? (i + 1) with
  | some '\\' =>
    match src.get? (i + 2), src.get? (i + 3) with
    | some e, some q =>
      if q = '\'' then
        match e with
        | 'n' => some ('\n', i + 4)
        | 't' => some ('\t', i + 4)
        | 'r' => some ('\r', i + 4)
        | '\\' => some ('\\', i + 4)
        | '\'' => some ('\'', i + 4)
        | '0' => some (Char.ofNat 0, i + 4)
        | _ => none
      else none
    | _, _ => none
  | some c =>
    if c = '\'' then none
    else match src.get? (i + 2) with
      | some q => if q = '\'' then some (c, i + 3) else none
      | none => none
  | none => none

/-- Lexer::lex - the cursor scanner, one token per recursive step.  Note
the source passes `self.index` (already advanced) as the start of
punctuation token spans; the quirk is preserved. -/
def lex : Nat → List Char → Nat → List Token → Except LangErr (List Token)
  | 0, _, _, _ => .error .outOfFuel
  | f + 1, src, i0, buf =>
    let i := skipTrivia (f + 1) src i0
    match src.get? i with
    | none => .ok (buf ++ [⟨.eof, (i, i)⟩])
    | some c =>
      if c = ' ' then lex f src (skipTrivia (f + 1) src i) buf
      else if c = '!' || c = '<' || c = '>' || c = ':' || c = '=' then
        match src.get? (i + 1) with
        | some '=' =>
          match twoCharTokenType c with
          | some ty => lex f src (i + 2) (buf ++ [⟨ty, (i + 2, i + 4)⟩])
          | none => .error (.invalidLexeme (String.singleton c))
        | _ =>
          match charTokenType c with
          | some ty => lex f src (i + 1) (buf ++ [⟨ty, (i + 1, i + 2)⟩])
          | none => .error (.invalidLexeme (String.singleton c))
      else if (charTokenType c).isSome then
        match charTokenType c with
        | some ty => lex f src (i + 1) (buf ++ [⟨ty, (i + 1, i + 2)⟩])
        | none => .error (.invalidLexeme (String.singleton c))
      else if c = '\'' then
        match parseQuotedChar src i with
        | some (ch, j) => lex f src j (buf ++ [⟨.char ch, (j, j + (j - i))⟩])
        | none => .error .invalidCharacterLiteral
      else if c.isDigit then
        let (cs, j) := takeWhileFrom (f + 1) src i Char.isDigit
        lex f src j (buf ++ [⟨.number (digitsToNat cs), (i, j)⟩])
      else if c.isAlpha then
        let (cs, j) := takeWhileFrom (f + 1) src i isValidIdentChar
        let name := String.mk cs
        if isKeyword name then lex f src j (buf ++ [keywordToken name i])
        else lex f src j (buf ++ [⟨.identifier name, (i, i + name.length)⟩])
      else .error (.invalidLexeme (String.singleton c))

/-- Lexer::run. -/
def lexRun (src : List Char) : Except LangErr (List Token) :=
  lex (src.length * 2 + 8) src 0 []

/-! ## Parser (src/lead/src/parse/mod.rs) -/

/-- Parser results: the value plus the index after it. -/
abbrev PRes (α : Type) := Except LangErr (α × Nat)

/-- LangParser::is_eof - no tokens left, or the current token is EOF. -/
def isEofP (ts : List Token) (i : Nat) : Bool :=
  match ts.get? i with
  | none => true
  | some tok => tok.token_type = .eof

/-- LangParser::is_line_end - despite its name, the source checks for
EOF (None yields false); the quirk is preserved. -/
def isLineEnd (ts : List Token) (i : Nat) : Bool :=
  match ts.get? i with
  | none => false
  | some tok => tok.token_type = .eof

/-- LangParser::consume. -/
def consume (ts : List Token) (i : Nat) (ty : TokenType) : PRes Token :=
  match ts.get? i with
  | none => .error (.unexpectedEndOfFile ty.display)
  | some tok =>
    if tok.token_type = ty then .ok (tok, i + 1)
    else .error (.expectedToken ty tok.token_type)

/-- LangParser::peek_nth: the count-th token from the cursor, requiring
count tokens to remain. -/
def peekNth (ts : List Token) (i : Nat) (count : Nat) : Except LangErr Token :=
  if i + count ≤ ts.length then
    match ts.get? (i + count - 1) with
    | some tok => .ok tok
    | none => .error (.unexpectedEndOfFile "EOF")
  else .error (.unexpectedEndOfFile "EOF")

/-- LangParser::parse_literal (the u64-to-i32 unwrap panics above
i32::MAX). -/
def parse_literal (ts : List Token) (i : Nat) : PRes Literal :=
  match ts.get? i with
  | none => .error (.unexpectedEndOfFile "EOF")
  | some tok =>
    match tok.token_type with
    | .bool b => .ok (.boolean b tok.span, i + 1)
    | .char c => .ok (.char c tok.span, i + 1)
    | .number n =>
      if n ≤ 2147483647 then .ok (.number (Int.ofNat n) tok.span, i + 1)
      else .error (.internalPanic "u64 to i32 conversion")
    | ty => .error (.invalidLiteral ty)

/-- LangParser::parse_unary_operator. -/
def parse_unary_operator (ts : List Token) (i : Nat) : PRes OperatorType :=
  match ts.get? i with
  | none => .error (.unexpectedEndOfFile "EOF")
  | some tok =>
    match tok.token_type with
    | .bang => .ok (.not, i + 1)
    | .minus => .ok (.minus, i + 1)
    | ty => .error (.invalidUnaryOperator ty)

/-- LangParser::parse_binary_operator (note Bang reaches it from the
binary-operator dispatch but is rejected here). -/
def parse_binary_operator (ts : List Token) (i : Nat) : PRes OperatorType :=
  match ts.get? i with
  | none => .error (.internalPanic "peek_one unwrap")
  | some tok =>
    match tok.token_type with
    | .minus => .ok (.minus, i + 1)
    | .plus => .ok (.plus, i + 1)
    | .slash => .ok (.divide, i + 1)
    | .star => .ok (.multiply, i + 1)
    | .lessThan => .ok (.lessThan, i + 1)
    | .greaterThan => .ok (.greaterThan, i + 1)
    | .lessThanEq => .ok (.lessThanEq, i + 1)
    | .greaterThanEq => .ok (.greaterThanEq, i + 1)
    | .eqEq => .ok (.equal, i + 1)
    | .bangEq => .ok (.notEqual, i + 1)
    | ty => .error (.invalidBinaryOperator ty)

mutual

/-- LangParser::parse_expr. -/
def parse_expr : Nat → List Token → Nat → PRes Expression
  | 0, _, _ => .error .outOfFuel
  | f + 1, ts, i =>
    if isEofP ts i then .error (.unexpectedEndOfFile "expression")
    else
      match ts.get? i with
      | none => .error (.unexpectedEndOfFile "EOF")
      | some tok =>
        match tok.token_type with
        | .number _ | .bool _ | .char _ =>
          match parse_literal ts i with
          | .error e => .error e
          | .ok (lit, i1) =>
            match parseContinue f ts i1 (.literal lit) with
            | .error e => .error e
            | .ok (expr, i2) => parseContinue f ts i2 expr
        | .minus | .bang =>
          match parse_unary_operator ts i with
          | .error e => .error e
          | .ok (op, i1) =>
            match parse_expr f ts i1 with
            | .error e => .error e
            | .ok (inner, i2) =>
              parseContinue f ts i2
                (.app (.unary op inner (joinSpans tok.span inner.spanOf)))
        | .leftParen =>
          match parse_expr f ts (i + 1) with
          | .error e => .error e
          | .ok (inner, i1) =>
            match ts.get? i1 with
            | none => .error (.unexpectedEndOfFile "EOF")
            | some tok2 =>
              match tok2.token_type with
              | .rightParen =>
                parseContinue f ts (i1 + 1)
                  (.group inner (joinSpans tok.span tok2.span))
              | ty => .error (.unmatchedDelimiter .rightParen ty)
        | .identifier name =>
          match ts.get? (i + 1) with
          | none => .error (.unexpectedEndOfFile "EOF")
          | some tok2 =>
            match tok2.token_type with
            | .leftSquare =>
              match parse_expr f ts (i + 2) with
              | .error e => .error e
              | .ok (idx, i1) =>
                match consume ts i1 .rightSquare with
                | .error e => .error e
                | .ok (rsq, i2) =>
                  parseContinue f ts i2
                    (.index name tok.span idx (joinSpans tok.span rsq.span))
            | _ => parseContinue f ts (i + 1) (.identifier name tok.span)
        | .leftSquare =>
          match parse_array f ts i with
          | .error e => .error e
          | .ok (arr, i1) => parseContinue f ts i1 arr
        | _ => .error (.internalPanic "todo")

termination_by structural f _ _ => f
/-- LangParser::parse_partial: binary continuation, right operand by a
recursive parse_expr call (right-associative, no precedence). -/
def parseContinue : Nat → List Token → Nat → Expression → PRes Expression
  | 0, _, _, _ => .error .outOfFuel
  | f + 1, ts, i, left =>
    if isEofP ts i || isLineEnd ts i then .ok (left, i)
    else
      match ts.get? i with
      | none => .error (.unexpectedEndOfFile "EOF")
      | some tok =>
        match tok.token_type with
        | .minus | .plus | .slash | .star | .lessThan | .greaterThan | .lessThanEq
        | .greaterThanEq | .eqEq | .bang | .bangEq =>
          match parse_binary_operator ts i with
          | .error e => .error e
          | .ok (op, i1) =>
            match parse_expr f ts i1 with
            | .error e => .error e
            | .ok (right, i2) =>
              .ok (.app (.binary op left right (joinSpans left.spanOf right.spanOf)), i2)
        | _ => .ok (left, i)

termination_by structural f _ _ _ => f
/-- LangParser::parse_array. -/
def parse_array : Nat → List Token → Nat → PRes Expression
  | 0, _, _ => .error .outOfFuel
  | f + 1, ts, i =>
    match consume ts i .leftSquare with
    | .error e => .error e
    | .ok (lsq, i1) =>
      match parseArrayElems f ts i1 [] with
      | .error e => .error e
      | .ok (elems, i2) =>
        match consume ts i2 .rightSquare with
        | .error e => .error e
        | .ok (rsq, i3) => .ok (.array elems (joinSpans lsq.span rsq.span), i3)

termination_by structural f _ _ => f
/-- The element loop of parse_array: until a right square bracket,
consume an optional comma and parse an element. -/
def parseArrayElems : Nat → List Token → Nat → List Expression → PRes (List Expression)
  | 0, _, _, _ => .error .outOfFuel
  | f + 1, ts, i, acc =>
    match ts.get? i with
    | none => .error (.unexpectedEndOfFile "EOF")
    | some tok =>
      if tok.token_type = .rightSquare then .ok (acc, i)
      else
        let i1 := if tok.token_type = .comma then i + 1 else i
        match parse_expr f ts i1 with
        | .error e => .error e
        | .ok (e, i2) => parseArrayElems f ts i2 (acc ++ [e])

termination_by structural f _ _ _ => f
/-- LangParser::parse_statement - the statement loop with two-token
lookahead for assignment dispatch. -/
def parse_statement : Nat → List Token → Nat → List Statement → PRes (List Statement)
  | 0, _, _, _ => .error .outOfFuel
  | f + 1, ts, i, buf =>
    if isEofP ts i then .ok (buf, i)
    else
      match ts.get? i with
      | none => .error (.internalPanic "peek_one unwrap")
      | some tok =>
        match tok.token_type with
        | .eof => .ok (buf, i)
        | .rightBrace => .ok (buf, i)
        | .identifier _ =>
          match peekNth ts i 2 with
          | .error e => .error e
          | .ok tok2 =>
            if tok2.token_type = .assign then
              match parse_mutate f ts i with
              | .error e => .error e
              | .ok (st, i1) => parse_statement f ts i1 (buf ++ [st])
            else
              match parse_expr f ts i with
              | .error e => .error e
              | .ok (e, i1) => parse_statement f ts i1 (buf ++ [.expr e])
        | .number _ | .bool _ | .char _ | .leftParen | .bang | .minus =>
          match parse_expr f ts i with
          | .error e => .error e
          | .ok (e, i1) => parse_statement f ts i1 (buf ++ [.expr e])
        | .letK =>
          match parse_let f ts i with
          | .error e => .error e
          | .ok (st, i1) => parse_statement f ts i1 (buf ++ [st])
        | .whileK | .ifK =>
          match parse_wif f ts i with
          | .error e => .error e
          | .ok (st, i1) => parse_statement f ts i1 (buf ++ [st])
        | .yieldK =>
          match parse_yield f ts i with
          | .error e => .error e
          | .ok (st, i1) => parse_statement f ts i1 (buf ++ [st])
        | ty => .error (.unexpectedToken ty)

termination_by structural f _ _ _ => f
/-- LangParser::parse_yield. -/
def parse_yield : Nat → List Token → Nat → PRes Statement
  | 0, _, _ => .error .outOfFuel
  | f + 1, ts, i =>
    match consume ts i .yieldK with
    | .error e => .error e
    | .ok (_, i1) =>
      match parse_expr f ts i1 with
      | .error e => .error e
      | .ok (e, i2) =>
        match consume ts i2 .semicolon with
        | .error e => .error e
        | .ok (_, i3) => .ok (.yieldS e, i3)

/-- LangParser::parse_wif - if and while share a parse. -/
def parse_wif : Nat → List Token → Nat → PRes Statement
  | 0, _, _ => .error .outOfFuel
  | f + 1, ts, i =>
    match ts.get? i with
    | none => .error (.internalPanic "advance_one unwrap")
    | some start =>
      match parse_expr f ts (i + 1) with
      | .error e => .error e
      | .ok (cond, i1) =>
        match consume ts i1 .leftBrace with
        | .error e => .error e
        | .ok (lb, i2) =>
          match parse_statement f ts i2 [] with
          | .error e => .error e
          | .ok (body, i3) =>
            match consume ts i3 .rightBrace with
            | .error e => .error e
            | .ok (rb, i4) =>
              let span := joinSpans (joinSpans (joinSpans start.span cond.spanOf) lb.span)
                rb.span
              match start.token_type with
              | .ifK => .ok (.ifS cond body span, i4)
              | .whileK => .ok (.whileS cond body span, i4)
              | _ => .error (.internalPanic "unreachable")

termination_by structural f _ _ => f
/-- LangParser::parse_let (Let::from rejects a non-identifier). -/
def parse_let : Nat → List Token → Nat → PRes Statement
  | 0, _, _ => .error .outOfFuel
  | f + 1, ts, i =>
    match consume ts i .letK with
    | .error e => .error e
    | .ok (start, i1) =>
      match parse_assign f ts i1 with
      | .error e => .error e
      | .ok ((varTok, value), i2) =>
        match varTok.token_type with
        | .identifier name =>
          .ok (.letS name value (joinSpans start.span value.spanOf), i2)
        | ty => .error (.invalidIdentifier ty.display)

/-- LangParser::parse_mutate (Mutate::from panics on a non-identifier). -/
def parse_mutate : Nat → List Token → Nat → PRes Statement
  | 0, _, _ => .error .outOfFuel
  | f + 1, ts, i =>
    match parse_assign f ts i with
    | .error e => .error e
    | .ok ((varTok, value), i1) =>
      match varTok.token_type with
      | .identifier name =>
        .ok (.mutate name value (joinSpans varTok.span value.spanOf), i1)
      | _ => .error (.internalPanic "should not be here")

/-- LangParser::parse_assign: variable token, `:=`, expression,
semicolon. -/
def parse_assign : Nat → List Token → Nat → PRes (Token × Expression)
  | 0, _, _ => .error .outOfFuel
  | f + 1, ts, i =>
    match ts.get? i with
    | none => .error (.unexpectedEndOfFile "identifier")
    | some varTok =>
      match consume ts (i + 1) .assign with
      | .error e => .error e
      | .ok (_, i1) =>
        match parse_expr f ts i1 with
        | .error e => .error e
        | .ok (value, i2) =>
          match consume ts i2 .semicolon with
          | .error e => .error e
          | .ok (_, i3) => .ok ((varTok, value), i3)

end

/-- Pipeline::parse: run parse_statement from the start with an empty
buffer. -/
def parseProgram (ts : List Token) : Except LangErr (List Statement) :=
  match parse_statement (ts.length * 4 + 16) ts 0 [] with
  | .error e => .error e
  | .ok (stmts, _) => .ok stmts

/-- The outcome of the whole pipeline on a source string. -/
inductive PipeOut where
  | compileError (e : LangErr)
  | run (msgs : List Message) (ending : RunEnd)
deriving DecidableEq, Repr

/-- The full pipeline: lex, parse, build, and run on a fresh machine
with the given memory size and fuel (Pipeline::lex/parse/build/run). -/
def pipelineRun (src : String) (memorySize : Nat) (fuel : Nat) : PipeOut :=
  match lexRun src.toList with
  | .error e => .compileError e
  | .ok ts =>
    match parseProgram ts with
    | .error e => .compileError e
    | .ok stmts =>
      match buildProgram stmts GenerationState.new with
      | .errL e _ => .compileError e
      | .okL instrs _ =>
        let (msgs, ending) := Machine.runFuel fuel (Machine.new instrs memorySize)
        .run msgs ending

/-! ## Right-associative, precedence-free expressions (claim C7) -/

/-- The token kind of a binary operator (Bang is what unary Not would
lex to; it is rejected by parse_binary_operator). -/
def binTokenOf : OperatorType → TokenType
  | .plus => .plus
  | .minus => .minus
  | .divide => .slash
  | .multiply => .star
  | .lessThan => .lessThan
  | .greaterThan => .greaterThan
  | .lessThanEq => .lessThanEq
  | .greaterThanEq => .greaterThanEq
  | .equal => .eqEq
  | .notEqual => .bangEq
  | .not => .bang

/-- The token stream of the expression `a op1 b op2 c;`. -/
def c7Tokens (a b c : Nat) (t1 t2 : TokenType) : List Token :=
  [⟨.number a, (0, 1)⟩, ⟨t1, (2, 3)⟩, ⟨.number b, (4, 5)⟩, ⟨t2, (6, 7)⟩,
   ⟨.number c, (8, 9)⟩, ⟨.semicolon, (10, 11)⟩, ⟨.eof, (11, 11)⟩]

set_option maxHeartbeats 2000000 in
/-- C7: expression parsing applies no operator precedence and is
right-associative by construction: `a op1 b op2 c` parses as
op1(a, op2(b, c)) for every pair of binary operators; in particular
`yield 2 * 3 + 1;` runs end to end to 8, not 7. -/
theorem parse_no_precedence (a b c : Nat) (op1 op2 : OperatorType)
    (h1 : op1 ≠ OperatorType.not) (h2 : op2 ≠ OperatorType.not)
    (ha : a ≤ 2147483647) (hb : b ≤ 2147483647) (hc : c ≤ 2147483647) :
    parse_expr 32 (c7Tokens a b c (binTokenOf op1) (binTokenOf op2)) 0 =
      .ok (.app (.binary op1 (.literal (.number (Int.ofNat a) (0, 1)))
          (.app (.binary op2 (.literal (.number (Int.ofNat b) (4, 5)))
            (.literal (.number (Int.ofNat c) (8, 9))) (4, 9))) (0, 9)), 5)
    ∧ pipelineRun "yield 2 * 3 + 1;" 256 64 =
        .run [Message.yieldMsg 8, Message.done] RunEnd.finished := by
  refine ⟨?_, by decide⟩
  cases op1 <;> cases op2 <;>
    first
    | exact absurd rfl h1
    | exact absurd rfl h2
    | simp [parse_expr, parseContinue, parse_literal, parse_binary_operator, binTokenOf,
        isEofP, isLineEnd, joinSpans, Expression.spanOf, Application.spanOf, Literal.spanOf,
        ha, hb, hc, c7Tokens]

/-- C7 witness: `2 * 3 + 1` parses as 2 * (3 + 1). -/
theorem parse_no_precedence_witness :
    parse_expr 32 (c7Tokens 2 3 1 (binTokenOf .multiply) (binTokenOf .plus)) 0 =
      .ok (.app (.binary .multiply (.literal (.number 2 (0, 1)))
          (.app (.binary .plus (.literal (.number 3 (4, 5)))
            (.literal (.number 1 (8, 9))) (4, 9))) (0, 9)), 5) :=
  (parse_no_precedence 2 3 1 .multiply .plus (by decide) (by decide)
    (by decide) (by decide) (by decide)).1

/-! ## The end-to-end while scenario (claim C1) -/

/-- Scenario 5 of the spec, verbatim. -/
def c1Source : String :=
  "let r := 1; while r < 5 \x7b yield r; r := r + 1 \x7d yield 64;"

/-- Scenario 5 with the semicolon the grammar requires after the mutate
statement. -/
def c1FixedSource : String :=
  "let r := 1; while r < 5 \x7b yield r; r := r + 1; \x7d yield 64;"

/-- C1 (code bug): the scenario-5 source does not even parse (the mutate
statement before the closing brace lacks its required semicolon), and
after fixing that the run faults at the first taken while iteration on
the branch to the never-emitted `-loop` label, yielding nothing - the
host never receives Yield(1)..Yield(4), Yield(64), Done. -/
theorem pipeline_scenario5_crashes :
    pipelineRun c1Source 256 64 =
      .compileError (.expectedToken .semicolon .rightBrace)
    ∧ pipelineRun c1FixedSource 256 64 =
      .run [] (.fatal (.missingLabel ⟨0, .loopL⟩))
    ∧ pipelineRun c1FixedSource 256 64 ≠
      .run [Message.yieldMsg 1, Message.yieldMsg 2, Message.yieldMsg 3, Message.yieldMsg 4,
        Message.yieldMsg 64, Message.done] RunEnd.finished :=
  ⟨by decide, by decide, by decide⟩

/-! ## Block algebra (claim C6) -/

/-- Appending one instruction to a list updates the last value-producing
output register exactly the way Block::append_inst updates the cache. -/
theorem lastOutputRegister_append (l : List Inst) (i : Inst) :
    lastOutputRegister (l ++ [i]) =
      match i.output_register with
      | some r => some r
      | none => lastOutputRegister l := by
  unfold lastOutputRegister
  rw [List.reverse_append]
  simp only [List.reverse_cons, List.reverse_nil, List.nil_append, List.cons_append,
    List.findSome?_cons]
  cases i.output_register <;> simp

/-- Blocks produced by the block operations of block.rs. -/
inductive Block.Produced : Block → Prop where
  | new (i : Inst) : (Block.new i).Produced
  | empty : Block.empty.Produced
  | from_instructions (l : List Inst) : (Block.from_instructions l).Produced
  | append_inst {b : Block} (i : Inst) : b.Produced → (b.append_inst i).Produced
  | extend {b : Block} (l : List Inst) : b.Produced → (b.extend l).Produced

/-- C6: for every block produced by the block operations (construction
from an instruction list, appending an instruction, extending with
instructions), the cached output register equals the destination register
of the last value-producing instruction of the block, or none if there is
no such instruction. -/
theorem block_output_register_last (b : Block) (h : b.Produced) :
    b.output_register = lastOutputRegister b.instructions := by
  induction h with
  | new i =>
    simp only [Block.new, lastOutputRegister, List.reverse_cons, List.reverse_nil,
      List.nil_append, List.findSome?_cons]
    cases i.output_register <;> simp
  | empty => rfl
  | from_instructions l => rfl
  | append_inst i hp ih =>
    simp only [Block.append_inst, lastOutputRegister_append, ih]
  | extend l hp ih => rfl

/-- C6 witness: the invariant at a concrete produced block. -/
theorem block_output_register_last_witness :
    Block.Produced (Block.from_instructions [⟨Instruction.con 0 5, (0, 1)⟩]) ∧
    (Block.from_instructions [⟨Instruction.con 0 5, (0, 1)⟩]).output_register =
      lastOutputRegister (Block.from_instructions [⟨Instruction.con 0 5, (0, 1)⟩]).instructions :=
  ⟨Block.Produced.from_instructions _,
    block_output_register_last _ (Block.Produced.from_instructions _)⟩

/-! ## Span join (claim C8) -/

/-- C8: joining two valid spans yields the union range (minimum of lows,
maximum of highs, still a valid left-to-right range), the product of the
two ids, and a prime-factor set containing the union of the two factor
sets. -/
theorem span_superspan_spec (a b : Span) (ha : a.Valid) (hb : b.Valid) :
    (a.superspan b).lo = min a.lo b.lo ∧
    (a.superspan b).hi = max a.hi b.hi ∧
    (a.superspan b).lo ≤ (a.superspan b).hi ∧
    (a.superspan b).id = a.id * b.id ∧
    a.id.primeFactors ∪ b.id.primeFactors ⊆ (a.superspan b).id.primeFactors := by
  obtain ⟨hal, hai⟩ := ha
  obtain ⟨hbl, hbi⟩ := hb
  refine ⟨rfl, rfl, ?_, rfl, ?_⟩
  · exact le_trans (min_le_left _ _) (le_trans hal (le_max_left _ _))
  · have hid : (a.superspan b).id = a.id * b.id := rfl
    rw [hid, Nat.primeFactors_mul hai.ne' hbi.ne']

/-- C8 witness: the join law at two concrete valid spans. -/
theorem span_superspan_spec_witness :
    Span.Valid ⟨2, 0, 3⟩ ∧ Span.Valid ⟨3, 2, 5⟩ ∧
    ((Span.superspan ⟨2, 0, 3⟩ ⟨3, 2, 5⟩).lo = min 0 2 ∧
     (Span.superspan ⟨2, 0, 3⟩ ⟨3, 2, 5⟩).hi = max 3 5 ∧
     (Span.superspan ⟨2, 0, 3⟩ ⟨3, 2, 5⟩).lo ≤ (Span.superspan ⟨2, 0, 3⟩ ⟨3, 2, 5⟩).hi ∧
     (Span.superspan ⟨2, 0, 3⟩ ⟨3, 2, 5⟩).id = 2 * 3 ∧
     Nat.primeFactors 2 ∪ Nat.primeFactors 3 ⊆
       Nat.primeFactors (Span.superspan ⟨2, 0, 3⟩ ⟨3, 2, 5⟩).id) :=
  ⟨⟨by decide, by decide⟩, ⟨by decide, by decide⟩,
    span_superspan_spec ⟨2, 0, 3⟩ ⟨3, 2, 5⟩ ⟨by decide, by decide⟩ ⟨by decide, by decide⟩⟩

/-! ## CHK semantics (claim C3) -/

/-- Bridge between the source's bit test and Nat.testBit. -/
theorem shiftRight_and_one_beq (m k : Nat) : (((m >>> k) &&& 1) == 1) = m.testBit k := by
  rw [Nat.testBit, Nat.and_one_is_mod, Nat.one_and_eq_mod_two]
  rcases Nat.mod_two_eq_zero_or_one (m >>> k) with h | h <;> rw [h] <;> rfl

/-- Flags::contains as a testBit statement: Nv always reads unset. -/
theorem flags_contains_eq (mask : Nat) (f : Flag) :
    Flags.contains mask f = (decide (f ≠ Flag.nv) && mask.testBit f.toBits) := by
  unfold Flags.contains
  by_cases hf : f = Flag.nv
  · simp [hf]
  · simp only [hf, if_false, shiftRight_and_one_beq, ne_eq, decide_not]
    simp [hf]

/-- C3: executing CHK f advances the pc by exactly 2 (skipping the next
instruction) when f is Nv or when bit f is clear in the flag mask, and by
exactly 1 when bit f is set; in particular CHK Nv always skips, and CHK Al
never skips in a state where the Al bit is set. -/
theorem chk_pc_advance (m : Machine) (f : Flag)
    (h : m.instructions[m.pc]? = some (.chk f)) :
    m.step = .next { m with
      pc := m.pc + (if f ≠ Flag.nv ∧ m.flags.testBit f.toBits then 1 else 2) } []
    ∧ (f = Flag.nv → m.step = .next { m with pc := m.pc + 2 } [])
    ∧ (f = Flag.al → m.flags.testBit 0 = true →
        m.step = .next { m with pc := m.pc + 1 } []) := by
  have hmain : m.step = .next { m with
      pc := m.pc + (if f ≠ Flag.nv ∧ m.flags.testBit f.toBits then 1 else 2) } [] := by
    simp only [Machine.step, h, Machine.process, flags_contains_eq]
    by_cases hf : f = Flag.nv
    · subst hf
      simp
    · by_cases hb : m.flags.testBit f.toBits
      · simp [hf, hb]
      · simp [hf, hb]
  refine ⟨hmain, ?_, ?_⟩
  · intro hf
    subst hf
    simpa using hmain
  · intro hf hb
    subst hf
    have : Flag.toBits Flag.al = 0 := rfl
    rw [hmain]
    simp [this, hb]

/-- C3 witness: CHK Nv on a concrete machine skips the next instruction. -/
theorem chk_pc_advance_witness :
    (Machine.mk [Instruction.chk Flag.nv] [] [] 0 1).instructions[0]? =
      some (Instruction.chk Flag.nv) ∧
    (Machine.mk [Instruction.chk Flag.nv] [] [] 0 1).step =
      .next { Machine.mk [Instruction.chk Flag.nv] [] [] 0 1 with pc := 0 + 2 } [] :=
  ⟨rfl, (chk_pc_advance (Machine.mk [Instruction.chk Flag.nv] [] [] 0 1) Flag.nv rfl).2.1 rfl⟩

/-! ## VM arithmetic (claim C9) -/

/-- C9: ADD, SUB and MUL store the unsigned result modulo two to the 32
(wrap on overflow; SUB stores x - y mod two to the 32 even when y exceeds
x), DIV stores the unsigned quotient, and DIV with divisor zero is a fatal
VM error that stores nothing and does not continue. -/
theorem vm_arith_wraps (m : Machine) (rd rx ry : Reg) (x y : Nat)
    (hx : m.get rx = .ok x) (hy : m.get ry = .ok y) :
    (m.instructions[m.pc]? = some (.add rd rx ry) →
      m.step = .next { m.save rd (wrap32 ((x : Int) + (y : Int))) with pc := m.pc + 1 } [])
    ∧ (m.instructions[m.pc]? = some (.sub rd rx ry) →
      m.step = .next { m.save rd (wrap32 ((x : Int) - (y : Int))) with pc := m.pc + 1 } [])
    ∧ (m.instructions[m.pc]? = some (.mul rd rx ry) →
      m.step = .next { m.save rd (wrap32 ((x : Int) * (y : Int))) with pc := m.pc + 1 } [])
    ∧ (m.instructions[m.pc]? = some (.div rd rx ry) → y ≠ 0 →
      m.step = .next { m.save rd (x / y) with pc := m.pc + 1 } [])
    ∧ (m.instructions[m.pc]? = some (.div rd rx ry) → y = 0 →
      m.step = .fatal VMErr.divisionByZero) := by
  refine ⟨?_, ?_, ?_, ?_, ?_⟩
  · intro h
    simp [Machine.step, h, Machine.process, hx, hy, Machine.save, Bind.bind, Except.bind]
  · intro h
    simp [Machine.step, h, Machine.process, hx, hy, Machine.save, Bind.bind, Except.bind]
  · intro h
    simp [Machine.step, h, Machine.process, hx, hy, Machine.save, Bind.bind, Except.bind]
  · intro h hy0
    simp [Machine.step, h, Machine.process, hx, hy, hy0, Machine.save, Bind.bind, Except.bind]
  · intro h hy0
    simp [Machine.step, h, Machine.process, hx, hy, hy0, Bind.bind, Except.bind]

/-- C9 witness: SUB with y greater than x wraps, at concrete registers 3
and 5 (result 2^32 - 2). -/
theorem vm_arith_wraps_witness :
    (Machine.mk [Instruction.sub 2 0 1] [(0, 3), (1, 5)] [] 0 1).get 0 = .ok 3 ∧
    (Machine.mk [Instruction.sub 2 0 1] [(0, 3), (1, 5)] [] 0 1).get 1 = .ok 5 ∧
    wrap32 ((3 : Int) - (5 : Int)) = 4294967294 ∧
    (Machine.mk [Instruction.sub 2 0 1] [(0, 3), (1, 5)] [] 0 1).step =
      .next { (Machine.mk [Instruction.sub 2 0 1] [(0, 3), (1, 5)] [] 0 1).save 2
        (wrap32 ((3 : Int) - (5 : Int))) with pc := 0 + 1 } [] :=
  ⟨rfl, rfl, by decide,
    (vm_arith_wraps (Machine.mk [Instruction.sub 2 0 1] [(0, 3), (1, 5)] [] 0 1)
      2 0 1 3 5 rfl rfl).2.1 rfl⟩

/-! ## Flag-mask invariants (claim C4) -/

/-- Bit test of a single shifted-in flag bit. -/
theorem testBit_one_shift (n k : Nat) : (1 <<< n).testBit k = decide (k = n) := by
  rw [Nat.shiftLeft_eq, one_mul]
  by_cases h : n = k
  · subst h
    simp [Nat.testBit_two_pow_self]
  · simp [Nat.testBit_two_pow_of_ne h, Ne.symm h]

/-- Bit test after Flags.set: the old bits plus the flag's own bit. -/
theorem Flags.set_testBit (mask : Nat) (f : Flag) (k : Nat) :
    (Flags.set mask f).testBit k = (mask.testBit k || decide (k = f.toBits)) := by
  unfold Flags.set
  rw [Nat.testBit_or, testBit_one_shift]

/-- Characterisation of the bits of set_flags: a bit is set afterwards iff
it was set before or its comparison predicate holds. -/
theorem setFlagsMask_testBit (mask x y k : Nat) :
    ((setFlagsMask mask x y).testBit k = true) ↔
      (mask.testBit k = true ∨ (k = 1 ∧ x = y) ∨ (k = 2 ∧ x ≠ y) ∨ (k = 3 ∧ x < y) ∨
        (k = 4 ∧ x ≤ y) ∨ (k = 5 ∧ y < x) ∨ (k = 6 ∧ y ≤ x)) := by
  rcases Nat.lt_trichotomy x y with h | h | h
  · have hval : setFlagsMask mask x y = ((mask ||| 1 <<< 2) ||| 1 <<< 3) ||| 1 <<< 4 := by
      simp only [setFlagsMask, Flags.set, Flag.toBits]
      split_ifs <;> first | rfl | omega
    rw [hval]
    simp only [Nat.testBit_or, testBit_one_shift, Bool.or_eq_true, decide_eq_true_eq]
    have h1 : x ≠ y := h.ne
    have h2 : x ≤ y := h.le
    have h3 : ¬y < x := by omega
    have h4 : ¬y ≤ x := by omega
    tauto
  · subst h
    have hval : setFlagsMask mask x x = ((mask ||| 1 <<< 1) ||| 1 <<< 4) ||| 1 <<< 6 := by
      simp only [setFlagsMask, Flags.set, Flag.toBits]
      split_ifs <;> first | rfl | omega
    rw [hval]
    simp only [Nat.testBit_or, testBit_one_shift, Bool.or_eq_true, decide_eq_true_eq]
    have h1 : x = x := rfl
    have h2 : ¬x < x := by omega
    have h3 : x ≤ x := le_rfl
    have h4 : ¬x ≠ x := by omega
    tauto
  · have hval : setFlagsMask mask x y = ((mask ||| 1 <<< 2) ||| 1 <<< 5) ||| 1 <<< 6 := by
      simp only [setFlagsMask, Flags.set, Flag.toBits]
      split_ifs <;> first | rfl | omega
    rw [hval]
    simp only [Nat.testBit_or, testBit_one_shift, Bool.or_eq_true, decide_eq_true_eq]
    have h1 : x ≠ y := h.ne'
    have h2 : y ≤ x := h.le
    have h3 : ¬x < y := by omega
    have h4 : ¬x ≤ y := by omega
    tauto

/-- set_flags never clears a bit. -/
theorem setFlagsMask_mono (mask x y k : Nat) (h : mask.testBit k = true) :
    (setFlagsMask mask x y).testBit k = true :=
  (setFlagsMask_testBit mask x y k).mpr (Or.inl h)

/-- set_flags leaves the Al bit unchanged. -/
theorem setFlagsMask_bit0 (mask x y : Nat) :
    (setFlagsMask mask x y).testBit 0 = mask.testBit 0 := by
  rw [Bool.eq_iff_iff]
  have h := setFlagsMask_testBit mask x y 0
  simpa using h

/-- set_flags leaves the Nv bit unchanged. -/
theorem setFlagsMask_bit7 (mask x y : Nat) :
    (setFlagsMask mask x y).testBit 7 = mask.testBit 7 := by
  rw [Bool.eq_iff_iff]
  have h := setFlagsMask_testBit mask x y 7
  simpa using h

/-- Effective-address resolution does not change the flag mask. -/
theorem effAddr_flags {m : Machine} {r : Reg} {mode : Mode} {a : Nat} {m1 : Machine}
    (h : m.effAddr r mode = .ok (a, m1)) : m1.flags = m.flags := by
  cases mode <;>
    simp only [Machine.effAddr, Machine.save, Bind.bind, Except.bind] at h <;>
    repeat' split at h
  all_goals cases h <;> rfl

/-- The post-offset write-back does not change the flag mask. -/
theorem postAdjust_flags {m : Machine} {r : Reg} {mode : Mode} {m1 : Machine}
    (h : m.postAdjust r mode = .ok m1) : m1.flags = m.flags := by
  cases mode <;>
    simp only [Machine.postAdjust, Machine.save, Bind.bind, Except.bind] at h <;>
    repeat' split at h
  all_goals cases h <;> rfl

/-- A store never changes the flag mask. -/
theorem store_flags {m : Machine} {r : Reg} {v : Nat} {mode : Mode} {m1 : Machine}
    (h : m.store r v mode = .ok m1) : m1.flags = m.flags := by
  unfold Machine.store at h
  simp only [Bind.bind, Except.bind] at h
  split at h
  · cases h
  case h_2 p heq =>
    obtain ⟨a, mA⟩ := p
    split at h
    · cases h
    case h_2 mem heqm =>
      have h1 := postAdjust_flags h
      have h2 := effAddr_flags heq
      rw [h1]
      exact h2

/-- A load never changes the flag mask. -/
theorem load_flags {m : Machine} {r : Reg} {mode : Mode} {v : Nat} {m1 : Machine}
    (h : m.load r mode = .ok (v, m1)) : m1.flags = m.flags := by
  unfold Machine.load at h
  simp only [Bind.bind, Except.bind] at h
  split at h
  · cases h
  case h_2 p heq =>
    obtain ⟨a, mA⟩ := p
    split at h
    · cases h
    case h_2 w heqm =>
      split at h
      · cases h
      case h_2 mB heqb =>
        cases h
        rw [postAdjust_flags heqb]
        exact effAddr_flags heq

/-- The only instruction that changes the flag mask is CMP, which maps it
through set_flags. -/
theorem process_flags {m : Machine} {i : Instruction} {m1 : Machine} {out : List Message}
    (h : m.process i = .ok (m1, out)) :
    m1.flags = m.flags ∨ ∃ x y, m1.flags = setFlagsMask m.flags x y := by
  cases i
  case str d a mo =>
    simp only [Machine.process, Bind.bind, Except.bind] at h
    split at h
    · cases h
    case h_2 v heq =>
      split at h
      · cases h
      case h_2 mS heqs =>
        cases h
        exact Or.inl (store_flags heqs)
  case ldr rd a mo =>
    simp only [Machine.process, Bind.bind, Except.bind] at h
    split at h
    · cases h
    case h_2 p heq =>
      obtain ⟨v, mL⟩ := p
      cases h
      exact Or.inl (show mL.flags = m.flags from load_flags heq)
  all_goals
    simp only [Machine.process, Machine.save, Bind.bind, Except.bind] at h
  all_goals repeat' split at h
  all_goals
    (cases h <;>
      first
      | (left; rfl)
      | (right; exact ⟨_, _, rfl⟩))

/-- A successful step either keeps the flag mask or maps it through
set_flags. -/
theorem step_flags_cases {m m' : Machine} {out : List Message}
    (h : m.step = .next m' out) :
    m'.flags = m.flags ∨ ∃ x y, m'.flags = setFlagsMask m.flags x y := by
  unfold Machine.step at h
  rcases hi : m.instructions[m.pc]? with _ | i
  · simp only [hi] at h
    cases h
  · simp only [hi] at h
    rcases hp : m.process i with e | p
    · simp only [hp] at h
      cases h
    · obtain ⟨m1, out1⟩ := p
      simp only [hp] at h
      injection h with h1 h2
      rw [← h1]
      simpa using process_flags hp

/-- Executing a CMP maps the flag mask through set_flags on the two
register values. -/
theorem step_cmp_flags {m m' : Machine} {out : List Message}
    {rx ry : Reg} {hint : Option Flag} {x y : Nat}
    (hi : m.instructions[m.pc]? = some (.cmp rx ry hint))
    (hx : m.get rx = .ok x) (hy : m.get ry = .ok y)
    (h : m.step = .next m' out) :
    m'.flags = setFlagsMask m.flags x y := by
  unfold Machine.step at h
  simp only [hi, Machine.process, hx, hy, Bind.bind, Except.bind] at h
  injection h with h1 h2
  rw [← h1]

/-- Comparison predicate named by each comparison flag. -/
def flagHolds : Flag → Nat → Nat → Prop
  | .eq, x, y => x = y
  | .ne, x, y => x ≠ y
  | .lt, x, y => x < y
  | .le, x, y => x ≤ y
  | .gt, x, y => y < x
  | .ge, x, y => y ≤ x
  | _, _, _ => False

/-- C4: in every state reachable from the initial state the Al bit is set
and the Nv bit is clear; every step only grows the flag mask (so the mask
is monotonically non-decreasing as a bit set across the whole run); and a
CMP sets exactly the bits of the comparison predicates that hold, clearing
nothing. -/
theorem vm_flags_invariant (instrs : List Instruction) (ms : Nat) (m : Machine)
    (h : ReachableFrom (Machine.new instrs ms) m) :
    (m.flags.testBit 0 = true ∧ m.flags.testBit 7 = false)
    ∧ (∀ m' out, m.step = .next m' out →
        ∀ k, m.flags.testBit k = true → m'.flags.testBit k = true)
    ∧ (∀ rx ry hint x y m' out,
        m.instructions[m.pc]? = some (.cmp rx ry hint) →
        m.get rx = .ok x → m.get ry = .ok y →
        m.step = .next m' out →
        ∀ f : Flag, f ≠ Flag.al → f ≠ Flag.nv →
          (m'.flags.testBit f.toBits = true ↔
            (flagHolds f x y ∨ m.flags.testBit f.toBits = true))) := by
  have hmono : ∀ m₁ m₂ : Machine, ∀ out, m₁.step = .next m₂ out →
      ∀ k, m₁.flags.testBit k = true → m₂.flags.testBit k = true := by
    intro m₁ m₂ out hst k hk
    rcases step_flags_cases hst with he | ⟨x, y, he⟩
    · rw [he]; exact hk
    · rw [he]; exact setFlagsMask_mono _ x y k hk
  refine ⟨?_, fun m' out hst k hk => hmono m m' out hst k hk, ?_⟩
  · induction h with
    | refl =>
      exact ⟨(by decide : Nat.testBit 1 0 = true), (by decide : Nat.testBit 1 7 = false)⟩
    | tail hr hst ih =>
      obtain ⟨ih0, ih7⟩ := ih
      rcases step_flags_cases hst with he | ⟨x, y, he⟩
      · rw [he]; exact ⟨ih0, ih7⟩
      · rw [he, setFlagsMask_bit0, setFlagsMask_bit7]; exact ⟨ih0, ih7⟩
  · intro rx ry hint x y m' out hi hx hy hst f hfa hfn
    rw [step_cmp_flags hi hx hy hst]
    cases f with
    | al => exact absurd rfl hfa
    | nv => exact absurd rfl hfn
    | eq =>
      rw [setFlagsMask_testBit]
      simp [Flag.toBits, flagHolds, or_comm]
    | ne =>
      rw [setFlagsMask_testBit]
      simp [Flag.toBits, flagHolds, or_comm]
    | lt =>
      rw [setFlagsMask_testBit]
      simp [Flag.toBits, flagHolds, or_comm]
    | le =>
      rw [setFlagsMask_testBit]
      simp [Flag.toBits, flagHolds, or_comm]
    | gt =>
      rw [setFlagsMask_testBit]
      simp [Flag.toBits, flagHolds, or_comm]
    | ge =>
      rw [setFlagsMask_testBit]
      simp [Flag.toBits, flagHolds, or_comm]

/-- C4 witness: the invariant at the initial state of a concrete
program. -/
theorem vm_flags_invariant_witness :
    (Machine.new [Instruction.cmp 0 1 none] 4).flags.testBit 0 = true ∧
    (Machine.new [Instruction.cmp 0 1 none] 4).flags.testBit 7 = false :=
  (vm_flags_invariant [Instruction.cmp 0 1 none] 4 _ ReachableFrom.refl).1

end Lead
